import Mathlib

set_option maxRecDepth 8000

/-!
Shallow embedding of the bank-statement transaction-extraction pipeline of
this repository (`excel_processor.py`, `pdf_processor.py`,
`transaction_categorizer.py`), together with theorems settling the
specification claims C1-C10.

Modelling conventions:
* Python strings are modelled by `String` / `List Char` (ASCII fragment of
  the Python semantics; all inputs exercised by the claims are ASCII).
* Python floats are modelled by exact rationals `ℚ`; the pipeline only
  parses decimal literals and compares/negates them, which `ℚ` models
  exactly.
* Fallible conversions (`try ... except`) are modelled by `Option` with an
  explicit default, which is the faithful embedding of "never raises".
* A spreadsheet cell (which pandas hands over as `None`/`NaN`, a number, a
  string, ...) is modelled by `Option String`: `none` for `None`/`NaN`, and
  `some s` for the string rendering `str(val)` used by the Python code.
-/

namespace BankPipe

/-! ### ASCII character classes, mirroring Python's `re`/`str` behaviour -/

/-- `\d` (ASCII). -/
def isDigitC (c : Char) : Bool := 48 ≤ c.toNat && c.toNat ≤ 57

def isUpperC (c : Char) : Bool := 65 ≤ c.toNat && c.toNat ≤ 90

def isLowerC (c : Char) : Bool := 97 ≤ c.toNat && c.toNat ≤ 122

def isAlphaC (c : Char) : Bool := isUpperC c || isLowerC c

/-- `\w` (ASCII): letters, digits, underscore. -/
def isWordC (c : Char) : Bool := isAlphaC c || isDigitC c || c = '_'

/-- `\s` (ASCII): space, tab, newline, carriage return, vertical tab, form feed. -/
def isSpaceC (c : Char) : Bool :=
  c = ' ' || c = '\t' || c = '\n' || c = '\r' || c.toNat = 11 || c.toNat = 12

/-- `str.upper`, ASCII fragment. -/
def pyUpperC (c : Char) : Char :=
  if isLowerC c then Char.ofNat (c.toNat - 32) else c

/-- `str.lower`, ASCII fragment. -/
def pyLowerC (c : Char) : Char :=
  if isUpperC c then Char.ofNat (c.toNat + 32) else c

def dval (c : Char) : Nat := c.toNat - 48

def dchar (n : Nat) : Char := Char.ofNat (48 + n)

/-! ### Generic list-of-char helpers shared by all modelled functions -/

/-- Match the literal `p` as a prefix of `cs`; return the rest on success. -/
def dropPref : List Char → List Char → Option (List Char)
  | [], cs => some cs
  | _ :: _, [] => none
  | p :: ps, c :: cs => if c = p then dropPref ps cs else none

def isPrefixL : List Char → List Char → Bool
  | [], _ => true
  | _ :: _, [] => false
  | p :: ps, c :: cs => p = c && isPrefixL ps cs

/-- Substring containment (`p in s` / an unanchored `re.search` of a literal). -/
def isSubstr (p : List Char) : List Char → Bool
  | [] => p.isEmpty
  | c :: rest => isPrefixL p (c :: rest) || isSubstr p rest

/-- Python `str.strip()`: drop ASCII whitespace at both ends. -/
def stripWs (cs : List Char) : List Char :=
  ((cs.dropWhile isSpaceC).reverse.dropWhile isSpaceC).reverse

/-- Python `str.strip(set)`: drop characters of `set` at both ends. -/
def stripSet (set : List Char) (cs : List Char) : List Char :=
  ((cs.dropWhile (fun c => set.contains c)).reverse.dropWhile
    (fun c => set.contains c)).reverse

/-- `re.sub(r'\s+', ' ', ·)`: collapse every whitespace run to one space. -/
def collapseWsAux : Bool → List Char → List Char
  | _, [] => []
  | prev, c :: rest =>
    if isSpaceC c then
      if prev then collapseWsAux true rest else ' ' :: collapseWsAux true rest
    else c :: collapseWsAux false rest

def collapseWs (cs : List Char) : List Char := collapseWsAux false cs

/-- Python `str.split()` (split on whitespace runs, no empty tokens). -/
def splitWsAux (acc : List Char) : List Char → List (List Char)
  | [] => if acc.isEmpty then [] else [acc.reverse]
  | c :: rest =>
    if isSpaceC c then
      if acc.isEmpty then splitWsAux [] rest else acc.reverse :: splitWsAux [] rest
    else splitWsAux (c :: acc) rest

def splitWs (cs : List Char) : List (List Char) := splitWsAux [] cs

/-- Python `str.split(sep)` for a single-character separator (keeps empties). -/
def splitOnAux (sep : Char) (acc : List Char) : List Char → List (List Char)
  | [] => [acc.reverse]
  | c :: rest =>
    if c = sep then acc.reverse :: splitOnAux sep [] rest
    else splitOnAux sep (c :: acc) rest

def splitOn (sep : Char) (cs : List Char) : List (List Char) := splitOnAux sep [] cs

/-- `' '.join(ws)`. -/
def joinSpace : List (List Char) → List Char
  | [] => []
  | [w] => w
  | w :: ws => w ++ ' ' :: joinSpace ws

/-- `w.isdigit()` (ASCII): non-empty and all digits. -/
def isdigitAll (w : List Char) : Bool := !w.isEmpty && w.all isDigitC

/-! ### Amount parsing (`safe_float`, `ExcelProcessor._parse_amount`)

`_parse_amount` first runs `re.sub(r'[^\d.-]', '', str(val))` and then
`safe_float`, i.e. Python `float(...)` with `0.0` on failure.  After the
strip only digits, `.` and `-` remain, so the accepted `float` literals are
`['-'] digits ['.' digits*] | ['-'] '.' digits`. -/

def keepAmt (c : Char) : Bool := isDigitC c || c = '.' || c = '-'

/-- `re.sub(r'[^\d.-]', '', ·)`. -/
def stripAmt (cs : List Char) : List Char := cs.filter keepAmt

def decVal (ds : List Char) : Nat := ds.foldl (fun a c => 10 * a + dval c) 0

/-- The exact rational value of `ip . fp` (integer part, fractional part),
built with `mkRat` so that the kernel can evaluate it. -/
def decRat (ip fp : List Char) : ℚ :=
  mkRat (Int.ofNat (decVal ip * 10 ^ fp.length + decVal fp)) (10 ^ fp.length)

/-- Python `float(s)` on a string containing only digits, `.` and `-`:
`some` of the exact rational value, or `none` where `float` raises. -/
def pyFloatChars (cs : List Char) : Option ℚ :=
  let neg : Bool := match cs with | '-' :: _ => true | _ => false
  let cs1 : List Char := match cs with | '-' :: r => r | _ => cs
  let intp := cs1.takeWhile isDigitC
  let rest := cs1.drop intp.length
  let core : Option ℚ :=
    if intp.isEmpty then
      match rest with
      | '.' :: fr =>
        if !fr.isEmpty && fr.all isDigitC then some (decRat [] fr) else none
      | _ => none
    else
      match rest with
      | [] => some (decRat intp [])
      | '.' :: fr =>
        if fr.all isDigitC then some (decRat intp fr) else none
      | _ => none
  core.map (fun q => if neg then -q else q)

/-- `ExcelProcessor._parse_amount` on a string value. -/
def parseAmountStr (s : String) : ℚ := (pyFloatChars (stripAmt s.data)).getD 0

/-- `ExcelProcessor._parse_amount` on a cell (`None`/`NaN` ↦ 0.0). -/
def parseAmountCell : Option String → ℚ
  | none => 0
  | some s => parseAmountStr s

/-- C6: the amount parser is total: it is insensitive to the characters the
strip removes (so any string yields a value, never an exception — failures of
the final conversion are mapped to 0.0 by `safe_float`), and on the spec's
examples `"1,234.50"` parses to 1234.50 and `"abc"` parses to 0.0. -/
theorem amount_parser_total_and_examples :
    (∀ s : String, parseAmountStr s = parseAmountStr (String.mk (stripAmt s.data)))
    ∧ parseAmountStr "1,234.50" = 2469 / 2
    ∧ parseAmountStr "abc" = 0 := by
  refine ⟨fun s => ?_, ?_, by decide⟩
  · show (pyFloatChars (stripAmt s.data)).getD 0
        = (pyFloatChars (stripAmt (String.mk (stripAmt s.data)).data)).getD 0
    have hdata : (String.mk (stripAmt s.data)).data = stripAmt s.data := rfl
    rw [hdata]
    have hidem : stripAmt (stripAmt s.data) = stripAmt s.data := by
      simp [stripAmt, List.filter_filter]
    rw [hidem]
  · have h1 : parseAmountStr "1,234.50" = mkRat 2469 2 := by decide
    have h2 : (mkRat 2469 2 : ℚ) = 2469 / 2 := by norm_num [Rat.mkRat_eq_div]
    exact h1.trans h2

/-! ### `normalize_text`

`normalize_text`: upper-case, collapse whitespace runs to one space, turn
every character outside `[\w\s/@.-]` into a space, then strip. -/

def keepNorm (c : Char) : Bool :=
  isWordC c || isSpaceC c || c = '/' || c = '@' || c = '.' || c = '-'

def normChars (cs : List Char) : List Char :=
  stripWs ((collapseWs (cs.map pyUpperC)).map
    (fun c => if keepNorm c then c else ' '))

/-- `normalize_text` on a cell (`None`/`NaN` ↦ `""`). -/
def normalizeText : Option String → String
  | none => ""
  | some v => String.mk (normChars v.data)

/-! ### Date parsing (`ExcelProcessor._parse_date`)

`_parse_date` tries `datetime.strptime` with the formats
`%d-%b-%Y`, `%d-%b-%y`, `%d/%m/%Y`, `%d-%m-%Y`, `%Y-%m-%d` in order and
re-renders a successful parse with `strftime('%d/%m/%Y')`; if no format
matches it returns the normalized text unchanged.  The model mirrors
CPython `_strptime`: `%d` matches `3[01]|[12]\d|0[1-9]|[1-9]`, `%m` matches
`1[0-2]|0[1-9]|[1-9]`, `%Y` exactly four digits, `%y` exactly two digits
(`≤ 68` ↦ 2000s, else 1900s), `%b` a three-letter month abbreviation
(case-insensitive), the whole string must be consumed, and the resulting
calendar date must be valid (`datetime` raises otherwise).  `strftime`
output is zero-padded (`%d`, `%m` to two digits, `%Y` to four, as
documented). -/

/-- Candidate parses of `%d` in regex-alternation order (value, rest). -/
def dayCands : List Char → List (Nat × List Char)
  | c1 :: c2 :: rest =>
    (if c1 = '3' && (c2 = '0' || c2 = '1') then [(30 + dval c2, rest)] else [])
    ++ (if (c1 = '1' || c1 = '2') && isDigitC c2 then
          [(10 * dval c1 + dval c2, rest)] else [])
    ++ (if c1 = '0' && isDigitC c2 && !(c2 = '0') then [(dval c2, rest)] else [])
    ++ (if isDigitC c1 && !(c1 = '0') then [(dval c1, c2 :: rest)] else [])
  | [c1] => if isDigitC c1 && !(c1 = '0') then [(dval c1, [])] else []
  | [] => []

/-- Candidate parses of `%m` in regex-alternation order. -/
def monthCands : List Char → List (Nat × List Char)
  | c1 :: c2 :: rest =>
    (if c1 = '1' && (c2 = '0' || c2 = '1' || c2 = '2') then
       [(10 + dval c2, rest)] else [])
    ++ (if c1 = '0' && isDigitC c2 && !(c2 = '0') then [(dval c2, rest)] else [])
    ++ (if isDigitC c1 && !(c1 = '0') then [(dval c1, c2 :: rest)] else [])
  | [c1] => if isDigitC c1 && !(c1 = '0') then [(dval c1, [])] else []
  | [] => []

/-- `%Y`: exactly four digits. -/
def year4 : List Char → Option (Nat × List Char)
  | a :: b :: c :: d :: rest =>
    if isDigitC a && isDigitC b && isDigitC c && isDigitC d then
      some (1000 * dval a + 100 * dval b + 10 * dval c + dval d, rest)
    else none
  | _ => none

/-- `%y`: exactly two digits; `00-68` ↦ `2000-2068`, `69-99` ↦ `1969-1999`. -/
def year2 : List Char → Option (Nat × List Char)
  | a :: b :: rest =>
    if isDigitC a && isDigitC b then
      let v := 10 * dval a + dval b
      some (if v ≤ 68 then 2000 + v else 1900 + v, rest)
    else none
  | _ => none

def monthAbbrevs : List String :=
  ["JAN", "FEB", "MAR", "APR", "MAY", "JUN",
   "JUL", "AUG", "SEP", "OCT", "NOV", "DEC"]

/-- `%b`: a three-letter month abbreviation (input is upper-cased by
`normalize_text`; the strptime regex is case-insensitive). -/
def monthName (cs : List Char) : Option (Nat × List Char) :=
  (List.range 12).findSome? (fun i =>
    match monthAbbrevs[i]? with
    | some nm =>
      match dropPref nm.data (cs.map pyUpperC) with
      | some _ => some (i + 1, cs.drop 3)
      | none => none
    | none => none)

def parseLit (c : Char) : List Char → Option (List Char)
  | d :: rest => if d = c then some rest else none
  | [] => none

def isLeap (y : Nat) : Bool := (y % 4 = 0 && !(y % 100 = 0)) || y % 400 = 0

def daysInMonth (y m : Nat) : Nat :=
  if m = 2 then (if isLeap y then 29 else 28)
  else if m = 4 || m = 6 || m = 9 || m = 11 then 30
  else 31

/-- The `datetime(...)` constructor validity check. -/
def validDate (y m d : Nat) : Bool :=
  1 ≤ y && y ≤ 9999 && 1 ≤ m && m ≤ 12 && 1 ≤ d && d ≤ daysInMonth y m

def firstSome {α β : Type} (l : List α) (k : α → Option β) : Option β :=
  match l with
  | [] => none
  | a :: t =>
    match k a with
    | some v => some v
    | none => firstSome t k

/-- `strptime(s, '%d' sep '%b' sep Yfmt)` with full-match + validity. -/
def fmtDbYgen (yf : List Char → Option (Nat × List Char)) (sep : Char)
    (cs : List Char) : Option (Nat × Nat × Nat) :=
  firstSome (dayCands cs) (fun dc =>
    match parseLit sep dc.2 with
    | none => none
    | some r2 =>
      match monthName r2 with
      | none => none
      | some mc =>
        match parseLit sep mc.2 with
        | none => none
        | some r4 =>
          match yf r4 with
          | none => none
          | some yc =>
            if yc.2.isEmpty && validDate yc.1 mc.1 dc.1 then
              some (yc.1, mc.1, dc.1)
            else none)

/-- The `%m sep %Y` tail of `%d sep %m sep %Y`, with the day value fixed. -/
def fmtTail (sep : Char) (d : Nat) (r2 : List Char) : Option (Nat × Nat × Nat) :=
  firstSome (monthCands r2) (fun mc =>
    match parseLit sep mc.2 with
    | none => none
    | some r4 =>
      match year4 r4 with
      | none => none
      | some yc =>
        if yc.2.isEmpty && validDate yc.1 mc.1 d then
          some (yc.1, mc.1, d)
        else none)

/-- `strptime(s, '%d' sep '%m' sep '%Y')` with full-match + validity. -/
def fmtDMY (sep : Char) (cs : List Char) : Option (Nat × Nat × Nat) :=
  firstSome (dayCands cs) (fun dc =>
    match parseLit sep dc.2 with
    | none => none
    | some r2 => fmtTail sep dc.1 r2)

/-- `strptime(s, '%Y-%m-%d')` with full-match + validity. -/
def fmtYMD (cs : List Char) : Option (Nat × Nat × Nat) :=
  match year4 cs with
  | none => none
  | some yc =>
    match parseLit '-' yc.2 with
    | none => none
    | some r2 =>
      firstSome (monthCands r2) (fun mc =>
        match parseLit '-' mc.2 with
        | none => none
        | some r4 =>
          firstSome (dayCands r4) (fun dc =>
            if dc.2.isEmpty && validDate yc.1 mc.1 dc.1 then
              some (yc.1, mc.1, dc.1)
            else none))

def pad2 (n : Nat) : List Char :=
  if n < 10 then ['0', dchar n] else [dchar (n / 10), dchar (n % 10)]

def pad4 (n : Nat) : List Char :=
  [dchar (n / 1000 % 10), dchar (n / 100 % 10), dchar (n / 10 % 10),
   dchar (n % 10)]

/-- `strftime('%d/%m/%Y')`. -/
def strftimeDMY (y m d : Nat) : List Char :=
  pad2 d ++ '/' :: (pad2 m ++ '/' :: pad4 y)

/-- The five formats of `self.date_formats`, tried in order. -/
def firstFmt (cs : List Char) : Option (Nat × Nat × Nat) :=
  match fmtDbYgen year4 '-' cs with
  | some r => some r
  | none =>
    match fmtDbYgen year2 '-' cs with
    | some r => some r
    | none =>
      match fmtDMY '/' cs with
      | some r => some r
      | none =>
        match fmtDMY '-' cs with
        | some r => some r
        | none => fmtYMD cs

def parseDateChars (cs : List Char) : List Char :=
  match firstFmt cs with
  | some r => strftimeDMY r.1 r.2.1 r.2.2
  | none => cs

/-- `ExcelProcessor._parse_date` on a cell: `None`/`NaN` ↦ `None`, else
normalize, try the formats, fall back to the normalized text. -/
def parseDateCell : Option String → Option String
  | none => none
  | some v => some (String.mk (parseDateChars (normChars v.data)))

/-! ### Facts about digit characters and the date model -/

lemma digit_bounds {c : Char} (h : isDigitC c = true) :
    48 ≤ c.toNat ∧ c.toNat ≤ 57 := by
  simpa [isDigitC, Bool.and_eq_true, decide_eq_true_eq] using h

lemma digit_ne {c d : Char} (h : isDigitC c = true) (hd : isDigitC d = false) :
    c ≠ d := by
  intro e; rw [e, hd] at h; cases h

lemma digit_ne_dash {c : Char} (h : isDigitC c = true) : c ≠ '-' :=
  digit_ne h (by decide)

lemma digit_ne_slash {c : Char} (h : isDigitC c = true) : c ≠ '/' :=
  digit_ne h (by decide)

lemma char_eq_of_toNat {c d : Char} (h : c.toNat = d.toNat) : c = d := by
  rw [← Char.ofNat_toNat c, ← Char.ofNat_toNat d, h]

lemma dchar_dval {c : Char} (h : isDigitC c = true) : dchar (dval c) = c := by
  obtain ⟨a, b⟩ := digit_bounds h
  unfold dchar dval
  have e : 48 + (c.toNat - 48) = c.toNat := by omega
  rw [e, Char.ofNat_toNat]

lemma digit_pyUpper {c : Char} (h : isDigitC c = true) : pyUpperC c = c := by
  obtain ⟨a, b⟩ := digit_bounds h
  have hl : isLowerC c = false := by
    simp only [isLowerC, Bool.and_eq_false_iff, decide_eq_false_iff_not]
    left; omega
  simp [pyUpperC, hl]

lemma digit_not_space {c : Char} (h : isDigitC c = true) : isSpaceC c = false := by
  obtain ⟨a, b⟩ := digit_bounds h
  simp only [isSpaceC, Bool.or_eq_false_iff, decide_eq_false_iff_not]
  refine ⟨⟨⟨⟨⟨?_, ?_⟩, ?_⟩, ?_⟩, ?_⟩, ?_⟩ <;>
    first
      | exact digit_ne h (by decide)
      | omega

lemma digit_keepNorm {c : Char} (h : isDigitC c = true) : keepNorm c = true := by
  simp [keepNorm, isWordC, h]

/-! Identity of `normalize_text` on strings of digits and slashes. -/

lemma map_pyUpper_id {cs : List Char}
    (h : ∀ c ∈ cs, isDigitC c = true ∨ c = '/') : cs.map pyUpperC = cs := by
  induction cs with
  | nil => rfl
  | cons c t ih =>
    have hc := h c (List.mem_cons_self c t)
    have hh : pyUpperC c = c := by
      rcases hc with hd | rfl
      · exact digit_pyUpper hd
      · decide
    simp only [List.map_cons, hh, ih (fun x hx => h x (List.mem_cons_of_mem c hx))]

lemma collapse_id {cs : List Char} (h : ∀ c ∈ cs, isSpaceC c = false) :
    ∀ b, collapseWsAux b cs = cs := by
  induction cs with
  | nil => intro b; rfl
  | cons c t ih =>
    intro b
    have hc := h c (List.mem_cons_self c t)
    simp only [collapseWsAux, hc, Bool.false_eq_true, if_false,
      ih (fun x hx => h x (List.mem_cons_of_mem c hx)) false]

lemma dropWhile_space_id {cs : List Char} (h : ∀ c ∈ cs, isSpaceC c = false) :
    cs.dropWhile isSpaceC = cs := by
  cases cs with
  | nil => rfl
  | cons c t =>
    have hc := h c (List.mem_cons_self c t)
    simp [List.dropWhile, hc]

lemma stripWs_id {cs : List Char} (h : ∀ c ∈ cs, isSpaceC c = false) :
    stripWs cs = cs := by
  unfold stripWs
  rw [dropWhile_space_id h,
    dropWhile_space_id (fun c hc => h c (List.mem_reverse.mp hc)),
    List.reverse_reverse]

lemma normChars_id {cs : List Char}
    (h : ∀ c ∈ cs, isDigitC c = true ∨ c = '/') : normChars cs = cs := by
  have hspace : ∀ c ∈ cs, isSpaceC c = false := by
    intro c hc
    rcases h c hc with hd | rfl
    · exact digit_not_space hd
    · decide
  have hkeep : ∀ c ∈ cs, keepNorm c = true := by
    intro c hc
    rcases h c hc with hd | rfl
    · exact digit_keepNorm hd
    · decide
  unfold normChars collapseWs
  rw [map_pyUpper_id h, collapse_id hspace false]
  have hmap : cs.map (fun c => if keepNorm c then c else ' ') = cs := by
    induction cs with
    | nil => rfl
    | cons c t ih =>
      simp only [List.map_cons, hkeep c (List.mem_cons_self c t), if_true,
        ih (fun x hx => h x (List.mem_cons_of_mem c hx))
           (fun x hx => hspace x (List.mem_cons_of_mem c hx))
           (fun x hx => hkeep x (List.mem_cons_of_mem c hx))]
  rw [hmap, stripWs_id hspace]

/-! Evaluation of the strptime model on `DD/MM/YYYY`-shaped inputs. -/

/-- The two-digit alternatives of `%d` as a single function. -/
def dayTwo (c1 c2 : Char) : Option Nat :=
  if c1 = '3' && (c2 = '0' || c2 = '1') then some (30 + dval c2)
  else if (c1 = '1' || c1 = '2') && isDigitC c2 then some (10 * dval c1 + dval c2)
  else if c1 = '0' && isDigitC c2 && !(c2 = '0') then some (dval c2)
  else none

/-- The two-digit alternatives of `%m` as a single function. -/
def monthTwo (c1 c2 : Char) : Option Nat :=
  if c1 = '1' && (c2 = '0' || c2 = '1' || c2 = '2') then some (10 + dval c2)
  else if c1 = '0' && isDigitC c2 && !(c2 = '0') then some (dval c2)
  else none

def yearVal (a b c d : Char) : Nat :=
  1000 * dval a + 100 * dval b + 10 * dval c + dval d

lemma dayCands_two (c1 c2 : Char) (rest : List Char) :
    dayCands (c1 :: c2 :: rest)
      = (match dayTwo c1 c2 with | some v => [(v, rest)] | none => [])
        ++ (if isDigitC c1 && !(c1 = '0') then [(dval c1, c2 :: rest)] else []) := by
  unfold dayCands dayTwo
  by_cases hA : (c1 = '3' && (c2 = '0' || c2 = '1')) = true
  · obtain ⟨hc1, hc2⟩ : c1 = '3' ∧ (c2 = '0' || c2 = '1') = true := by
      simpa [Bool.and_eq_true, decide_eq_true_eq] using hA
    subst hc1
    simp [hc2]
  · by_cases hB : ((c1 = '1' || c1 = '2') && isDigitC c2) = true
    · obtain ⟨hc1, hc2⟩ : (c1 = '1' ∨ c1 = '2') ∧ isDigitC c2 = true := by
        simpa [Bool.and_eq_true, Bool.or_eq_true, decide_eq_true_eq] using hB
      rcases hc1 with rfl | rfl <;> simp [hc2]
    · by_cases hC : (c1 = '0' && isDigitC c2 && !(c2 = '0')) = true
      · obtain ⟨⟨hc1, hc2⟩, hc3⟩ :
            (c1 = '0' ∧ isDigitC c2 = true) ∧ (c2 = '0') = false := by
          simpa [Bool.and_eq_true, decide_eq_true_eq, Bool.not_eq_true',
            decide_eq_false_iff_not] using hC
        subst hc1
        simp [hc2, hc3]
      · rw [Bool.not_eq_true] at hA hB hC
        simp [hA, hB, hC]

lemma monthCands_two (c1 c2 : Char) (rest : List Char) :
    monthCands (c1 :: c2 :: rest)
      = (match monthTwo c1 c2 with | some v => [(v, rest)] | none => [])
        ++ (if isDigitC c1 && !(c1 = '0') then [(dval c1, c2 :: rest)] else []) := by
  unfold monthCands monthTwo
  by_cases hA : (c1 = '1' && (c2 = '0' || c2 = '1' || c2 = '2')) = true
  · obtain ⟨hc1, hc2⟩ : c1 = '1' ∧ (c2 = '0' || c2 = '1' || c2 = '2') = true := by
      simpa [Bool.and_eq_true, decide_eq_true_eq] using hA
    subst hc1
    simp [hc2]
  · by_cases hB : (c1 = '0' && isDigitC c2 && !(c2 = '0')) = true
    · obtain ⟨⟨hc1, hc2⟩, hc3⟩ :
          (c1 = '0' ∧ isDigitC c2 = true) ∧ (c2 = '0') = false := by
        simpa [Bool.and_eq_true, decide_eq_true_eq, Bool.not_eq_true',
          decide_eq_false_iff_not] using hB
      subst hc1
      simp [hc2, hc3]
    · rw [Bool.not_eq_true] at hA hB
      simp [hA, hB]

lemma firstSome_eq_none {α β : Type} {l : List α} {k : α → Option β}
    (h : ∀ a ∈ l, k a = none) : firstSome l k = none := by
  induction l with
  | nil => rfl
  | cons a t ih =>
    simp only [firstSome, h a (List.mem_cons_self a t)]
    exact ih (fun x hx => h x (List.mem_cons_of_mem a hx))

lemma mem_dayCands_rest {c1 c2 : Char} {rest : List Char} {p : Nat × List Char}
    (hp : p ∈ dayCands (c1 :: c2 :: rest)) :
    p.2 = rest ∨ p.2 = c2 :: rest := by
  rw [dayCands_two] at hp
  rcases List.mem_append.mp hp with h | h
  · left
    cases hd : dayTwo c1 c2 <;> rw [hd] at h <;> simp at h
    rw [h]
  · right
    split at h <;> simp at h
    rw [h]

lemma dayTwo_val {c1 c2 : Char} {D : Nat} (h : dayTwo c1 c2 = some D) :
    D = 10 * dval c1 + dval c2 := by
  unfold dayTwo at h
  split_ifs at h with hA hB hC
  · obtain ⟨hc1, _⟩ : c1 = '3' ∧ (c2 = '0' || c2 = '1') = true := by
      simpa [Bool.and_eq_true, decide_eq_true_eq] using hA
    subst hc1
    injection h with h
    have e3 : dval '3' = 3 := rfl
    omega
  · injection h with h
    omega
  · obtain ⟨⟨hc1, _⟩, _⟩ :
        (c1 = '0' ∧ isDigitC c2 = true) ∧ (c2 = '0') = false := by
      simpa [Bool.and_eq_true, decide_eq_true_eq, Bool.not_eq_true',
        decide_eq_false_iff_not] using hC
    subst hc1
    injection h with h
    have e0 : dval '0' = 0 := rfl
    omega

lemma monthTwo_val {c1 c2 : Char} {M : Nat} (h : monthTwo c1 c2 = some M) :
    M = 10 * dval c1 + dval c2 := by
  unfold monthTwo at h
  split_ifs at h with hA hB
  · obtain ⟨hc1, _⟩ : c1 = '1' ∧ (c2 = '0' || c2 = '1' || c2 = '2') = true := by
      simpa [Bool.and_eq_true, decide_eq_true_eq] using hA
    subst hc1
    injection h with h
    have e1 : dval '1' = 1 := rfl
    omega
  · obtain ⟨⟨hc1, _⟩, _⟩ :
        (c1 = '0' ∧ isDigitC c2 = true) ∧ (c2 = '0') = false := by
      simpa [Bool.and_eq_true, decide_eq_true_eq, Bool.not_eq_true',
        decide_eq_false_iff_not] using hB
    subst hc1
    injection h with h
    have e0 : dval '0' = 0 := rfl
    omega

lemma pad2_digits {c1 c2 : Char} (h1 : isDigitC c1 = true)
    (h2 : isDigitC c2 = true) : pad2 (10 * dval c1 + dval c2) = [c1, c2] := by
  obtain ⟨a1, a2⟩ := digit_bounds h1
  obtain ⟨b1, b2⟩ := digit_bounds h2
  unfold pad2 dval
  by_cases h : 10 * (c1.toNat - 48) + (c2.toNat - 48) < 10
  · rw [if_pos h]
    have hc1 : c1 = '0' := by
      apply char_eq_of_toNat
      have : ('0' : Char).toNat = 48 := rfl
      omega
    have e2 : 10 * (c1.toNat - 48) + (c2.toNat - 48) = c2.toNat - 48 := by
      have : ('0' : Char).toNat = 48 := rfl
      rw [hc1]; omega
    rw [e2, hc1]
    have hr : dchar (c2.toNat - 48) = c2 := dchar_dval h2
    rw [hr]
  · rw [if_neg h]
    have e1 : (10 * (c1.toNat - 48) + (c2.toNat - 48)) / 10 = c1.toNat - 48 := by
      omega
    have e2 : (10 * (c1.toNat - 48) + (c2.toNat - 48)) % 10 = c2.toNat - 48 := by
      omega
    rw [e1, e2]
    have r1 : dchar (c1.toNat - 48) = c1 := dchar_dval h1
    have r2 : dchar (c2.toNat - 48) = c2 := dchar_dval h2
    rw [r1, r2]

lemma pad4_digits {y1 y2 y3 y4 : Char} (h1 : isDigitC y1 = true)
    (h2 : isDigitC y2 = true) (h3 : isDigitC y3 = true)
    (h4 : isDigitC y4 = true) :
    pad4 (yearVal y1 y2 y3 y4) = [y1, y2, y3, y4] := by
  obtain ⟨a1, a2⟩ := digit_bounds h1
  obtain ⟨b1, b2⟩ := digit_bounds h2
  obtain ⟨c1, c2⟩ := digit_bounds h3
  obtain ⟨d1, d2⟩ := digit_bounds h4
  unfold pad4 yearVal dval
  have e1 : (1000 * (y1.toNat - 48) + 100 * (y2.toNat - 48)
      + 10 * (y3.toNat - 48) + (y4.toNat - 48)) / 1000 % 10 = y1.toNat - 48 := by
    omega
  have e2 : (1000 * (y1.toNat - 48) + 100 * (y2.toNat - 48)
      + 10 * (y3.toNat - 48) + (y4.toNat - 48)) / 100 % 10 = y2.toNat - 48 := by
    omega
  have e3 : (1000 * (y1.toNat - 48) + 100 * (y2.toNat - 48)
      + 10 * (y3.toNat - 48) + (y4.toNat - 48)) / 10 % 10 = y3.toNat - 48 := by
    omega
  have e4 : (1000 * (y1.toNat - 48) + 100 * (y2.toNat - 48)
      + 10 * (y3.toNat - 48) + (y4.toNat - 48)) % 10 = y4.toNat - 48 := by
    omega
  rw [e1, e2, e3, e4]
  have r1 : dchar (y1.toNat - 48) = y1 := dchar_dval h1
  have r2 : dchar (y2.toNat - 48) = y2 := dchar_dval h2
  have r3 : dchar (y3.toNat - 48) = y3 := dchar_dval h3
  have r4 : dchar (y4.toNat - 48) = y4 := dchar_dval h4
  rw [r1, r2, r3, r4]

lemma fmtDbYgen_dash_fail {d1 d2 : Char} {rest : List Char}
    (h2 : isDigitC d2 = true)
    (yf : List Char → Option (Nat × List Char)) :
    fmtDbYgen yf '-' (d1 :: d2 :: '/' :: rest) = none := by
  unfold fmtDbYgen
  apply firstSome_eq_none
  intro dc hdc
  rcases mem_dayCands_rest hdc with h | h <;> rw [h]
  · simp [parseLit]
  · simp [parseLit, digit_ne_dash h2]

lemma fmtDMY_dash_fail {d1 d2 : Char} {rest : List Char}
    (h2 : isDigitC d2 = true) :
    fmtDMY '-' (d1 :: d2 :: '/' :: rest) = none := by
  unfold fmtDMY
  apply firstSome_eq_none
  intro dc hdc
  rcases mem_dayCands_rest hdc with h | h <;> rw [h]
  · simp [parseLit]
  · simp [parseLit, digit_ne_dash h2]

lemma fmtYMD_fail {d1 d2 c : Char} {rest : List Char} :
    fmtYMD (d1 :: d2 :: '/' :: c :: rest) = none := by
  have hs : isDigitC '/' = false := by decide
  simp [fmtYMD, year4, hs]

lemma fmtTail_eval (m1 m2 y1 y2 y3 y4 : Char) (D : Nat)
    (h4 : isDigitC m2 = true)
    (h5 : isDigitC y1 = true) (h6 : isDigitC y2 = true)
    (h7 : isDigitC y3 = true) (h8 : isDigitC y4 = true) :
    fmtTail '/' D (m1 :: m2 :: '/' :: y1 :: y2 :: y3 :: y4 :: [])
      = match monthTwo m1 m2 with
        | some M =>
          if validDate (yearVal y1 y2 y3 y4) M D then
            some (yearVal y1 y2 y3 y4, M, D)
          else none
        | none => none := by
  have hyear : year4 (y1 :: y2 :: y3 :: y4 :: []) =
      some (yearVal y1 y2 y3 y4, []) := by
    simp [year4, h5, h6, h7, h8, yearVal]
  unfold fmtTail
  rw [monthCands_two]
  cases hM : monthTwo m1 m2 with
  | none =>
    cases hone2 : (isDigitC m1 && !(m1 = '0')) <;>
      simp [firstSome, parseLit, digit_ne_slash h4]
  | some M =>
    cases hV : validDate (yearVal y1 y2 y3 y4) M D with
    | true => simp [firstSome, parseLit, hyear, hV]
    | false =>
      cases hone2 : (isDigitC m1 && !(m1 = '0')) <;>
        simp [firstSome, parseLit, hyear, hV, digit_ne_slash h4]

lemma fmtDMY_slash_eval (d1 d2 m1 m2 y1 y2 y3 y4 : Char)
    (h2 : isDigitC d2 = true) (h4 : isDigitC m2 = true)
    (h5 : isDigitC y1 = true) (h6 : isDigitC y2 = true)
    (h7 : isDigitC y3 = true) (h8 : isDigitC y4 = true) :
    fmtDMY '/' [d1, d2, '/', m1, m2, '/', y1, y2, y3, y4]
      = match dayTwo d1 d2, monthTwo m1 m2 with
        | some D, some M =>
          if validDate (yearVal y1 y2 y3 y4) M D then
            some (yearVal y1 y2 y3 y4, M, D)
          else none
        | _, _ => none := by
  unfold fmtDMY
  rw [show ([d1, d2, '/', m1, m2, '/', y1, y2, y3, y4] : List Char)
      = d1 :: d2 :: ('/' :: m1 :: m2 :: '/' :: y1 :: y2 :: y3 :: y4 :: []) from
      rfl]
  rw [dayCands_two]
  cases hD : dayTwo d1 d2 with
  | none =>
    cases hone : (isDigitC d1 && !(d1 = '0')) <;>
      simp [firstSome, parseLit, digit_ne_slash h2]
  | some D =>
    have htail := fmtTail_eval m1 m2 y1 y2 y3 y4 D h4 h5 h6 h7 h8
    cases hM : monthTwo m1 m2 with
    | none =>
      cases hone : (isDigitC d1 && !(d1 = '0')) <;>
        simp [firstSome, parseLit, digit_ne_slash h2, htail, hM]
    | some M =>
      cases hV : validDate (yearVal y1 y2 y3 y4) M D with
      | true => simp [firstSome, parseLit, htail, hM, hV]
      | false =>
        cases hone : (isDigitC d1 && !(d1 = '0')) <;>
          simp [firstSome, parseLit, digit_ne_slash h2, htail, hM, hV]

/-- C9: Date normalization is idempotent: for every string already in
`DD/MM/YYYY` form (two digit characters, a slash, two digit characters, a
slash, four digit characters), `_parse_date` returns the same string — a
valid calendar date round-trips through `strptime`/`strftime('%d/%m/%Y')`
unchanged, and anything else falls through every format and is returned
verbatim. -/
theorem date_idempotent (d1 d2 m1 m2 y1 y2 y3 y4 : Char)
    (h1 : isDigitC d1 = true) (h2 : isDigitC d2 = true)
    (h3 : isDigitC m1 = true) (h4 : isDigitC m2 = true)
    (h5 : isDigitC y1 = true) (h6 : isDigitC y2 = true)
    (h7 : isDigitC y3 = true) (h8 : isDigitC y4 = true) :
    parseDateCell (some (String.mk [d1, d2, '/', m1, m2, '/', y1, y2, y3, y4]))
      = some (String.mk [d1, d2, '/', m1, m2, '/', y1, y2, y3, y4]) := by
  have hall : ∀ c ∈ ([d1, d2, '/', m1, m2, '/', y1, y2, y3, y4] : List Char),
      isDigitC c = true ∨ c = '/' := by
    intro c hc
    simp only [List.mem_cons, List.not_mem_nil, or_false] at hc
    rcases hc with rfl | rfl | rfl | rfl | rfl | rfl | rfl | rfl | rfl | rfl
    · exact Or.inl h1
    · exact Or.inl h2
    · exact Or.inr rfl
    · exact Or.inl h3
    · exact Or.inl h4
    · exact Or.inr rfl
    · exact Or.inl h5
    · exact Or.inl h6
    · exact Or.inl h7
    · exact Or.inl h8
  show some (String.mk (parseDateChars
      (normChars [d1, d2, '/', m1, m2, '/', y1, y2, y3, y4]))) = _
  rw [normChars_id hall]
  suffices hp : parseDateChars [d1, d2, '/', m1, m2, '/', y1, y2, y3, y4]
      = [d1, d2, '/', m1, m2, '/', y1, y2, y3, y4] by rw [hp]
  unfold parseDateChars firstFmt
  rw [show ([d1, d2, '/', m1, m2, '/', y1, y2, y3, y4] : List Char)
      = d1 :: d2 :: '/' :: (m1 :: m2 :: '/' :: y1 :: y2 :: y3 :: y4 :: []) from
      rfl]
  rw [fmtDbYgen_dash_fail h2 year4, fmtDbYgen_dash_fail h2 year2,
    fmtDMY_dash_fail h2, fmtYMD_fail]
  rw [show (d1 :: d2 :: '/' :: (m1 :: m2 :: '/' :: y1 :: y2 :: y3 :: y4 :: []))
      = ([d1, d2, '/', m1, m2, '/', y1, y2, y3, y4] : List Char) from rfl]
  rw [fmtDMY_slash_eval d1 d2 m1 m2 y1 y2 y3 y4 h2 h4 h5 h6 h7 h8]
  cases hD : dayTwo d1 d2 with
  | none => rfl
  | some D =>
    cases hM : monthTwo m1 m2 with
    | none => rfl
    | some M =>
      cases hV : validDate (yearVal y1 y2 y3 y4) M D with
      | false => simp [hV]
      | true =>
        simp only [hV, if_true]
        have hpd : pad2 D = [d1, d2] := by
          rw [dayTwo_val hD]; exact pad2_digits h1 h2
        have hpm : pad2 M = [m1, m2] := by
          rw [monthTwo_val hM]; exact pad2_digits h3 h4
        have hpy : pad4 (yearVal y1 y2 y3 y4) = [y1, y2, y3, y4] :=
          pad4_digits h5 h6 h7 h8
        show strftimeDMY (yearVal y1 y2 y3 y4) M D = _
        unfold strftimeDMY
        rw [hpd, hpm, hpy]
        rfl

/-- C9 witness: the concrete already-normalized date `12/03/2024` is a fixed
point of `_parse_date`. -/
theorem date_idempotent_witness :
    parseDateCell (some (String.mk
      ['1', '2', '/', '0', '3', '/', '2', '0', '2', '4']))
      = some (String.mk ['1', '2', '/', '0', '3', '/', '2', '0', '2', '4']) :=
  date_idempotent '1' '2' '0' '3' '2' '0' '2' '4'
    (by decide) (by decide) (by decide) (by decide)
    (by decide) (by decide) (by decide) (by decide)

/-! ### Whole-word regex search (`\b...\b`) -/

def isWordOpt : Option Char → Bool
  | none => false
  | some c => isWordC c

/-- `\b` between an (optional) previous character and the first character of
the literal: exactly one side is a word character. -/
def bdryBefore (prev : Option Char) (w : List Char) : Bool :=
  match w with
  | [] => false
  | c :: _ => isWordOpt prev != isWordC c

/-- `\b` between the last character of the literal and the rest. -/
def bdryAfter (w rest : List Char) : Bool :=
  match w.getLast? with
  | none => false
  | some lc => isWordC lc != isWordOpt rest.head?

/-- Positions of whole-word occurrences of the literal `w`
(`re.findall(r'\b w \b')` match starts). -/
def wordOccsAux (w : List Char) (prev : Option Char) (i : Nat) :
    List Char → List Nat
  | [] => []
  | c :: rest =>
    let here :=
      bdryBefore prev w &&
        (match dropPref w (c :: rest) with
         | some r2 => bdryAfter w r2
         | none => false)
    let tail := wordOccsAux w (some c) (i + 1) rest
    if here then i :: tail else tail

def wordOccs (w cs : List Char) : List Nat := wordOccsAux w none 0 cs

/-- `re.search(r'\b w \b', cs) is not None` for a literal `w`. -/
def containsWord (w cs : List Char) : Bool := !(wordOccs w cs).isEmpty

/-- `re.sub(rf'\b{w}\b', '', cs)`: remove every non-overlapping whole-word
occurrence (boundaries are judged on the original string, as `re.sub` does). -/
def removeWordAux (w : List Char) : Nat → Option Char → List Char → List Char
  | 0, _, cs => cs
  | _ + 1, _, [] => []
  | fuel + 1, prev, c :: rest =>
    match dropPref w (c :: rest) with
    | some r2 =>
      if bdryBefore prev w && bdryAfter w r2 then
        removeWordAux w fuel w.getLast? r2
      else c :: removeWordAux w fuel (some c) rest
    | none => c :: removeWordAux w fuel (some c) rest

def removeWordAll (w cs : List Char) : List Char :=
  removeWordAux w cs.length none cs

/-! ### Party extraction (`ExcelProcessor._extract_party`, `_clean_party`) -/

def businessSuffixes : List String :=
  ["TRADERS", "AGENCIES", "ENTERPRISES", "SERVICES", "SOLUTIONS",
   "PVT", "LTD", "LIMITED", "CORP", "COMPANY", "CO", "GROUP",
   "BANK", "PAYMENTS", "FINTECH"]

/-- `_clean_party` applied to a non-empty name: remove business suffixes
(whole-word), replace `[^\w\s]` by a space, re-join on whitespace. -/
def cleanPartyRun (cs : List Char) : List Char :=
  let n1 := businessSuffixes.foldl (fun acc s => removeWordAll s.data acc) cs
  let n2 := n1.map (fun c => if isWordC c || isSpaceC c then c else ' ')
  joinSpace (splitWs n2)

/-- `_clean_party`: `None` for a falsy input, else the cleaned string. -/
def cleanParty (cs : List Char) : Option (List Char) :=
  if cs.isEmpty then none else some (cleanPartyRun cs)

def knownMerchants : List (String × String) :=
  [("AMAZON", "AMAZON"), ("FLIPKART", "FLIPKART"), ("SWIGGY", "SWIGGY"),
   ("ZOMATO", "ZOMATO"), ("PAYTM", "PAYTM"), ("PHONEPE", "PHONEPE"),
   ("GPAY", "GOOGLE PAY"), ("BHIM", "BHIM"), ("UBER", "UBER"),
   ("OLA", "OLA"), ("NETFLIX", "NETFLIX"), ("SPOTIFY", "SPOTIFY"),
   ("IRCTC", "IRCTC")]

/-- First known-merchant pattern (in table order) matching the narration. -/
def merchantMatch (cs : List Char) : Option String :=
  (knownMerchants.find? (fun kv => containsWord kv.1.data cs)).map
    (fun kv => kv.2)

/-- `re.search(r'@([A-Z0-9]+)', ...)`: the run after the leftmost `@` that is
followed by at least one `[A-Z0-9]` character. -/
def upiHandleAux : List Char → Option (List Char)
  | [] => none
  | c :: rest =>
    if c = '@' then
      let run := rest.takeWhile (fun d => isUpperC d || isDigitC d)
      if run.isEmpty then upiHandleAux rest else some run
    else upiHandleAux rest

/-- The `(TO|FROM|BY)\s+([A-Z][A-Z\s]{2,})` attempt at one position. -/
def tfbAt (kw : List Char) (cs : List Char) : Option (List Char) :=
  match dropPref kw cs with
  | none => none
  | some r1 =>
    let ws := r1.takeWhile isSpaceC
    if ws.isEmpty then none
    else
      match r1.drop ws.length with
      | c0 :: r3 =>
        if isUpperC c0 then
          let run := r3.takeWhile (fun d => isUpperC d || isSpaceC d)
          if 2 ≤ run.length then some (c0 :: run) else none
        else none
      | [] => none

/-- `re.search(r'\b(TO|FROM|BY)\s+([A-Z][A-Z\s]{2,})', ...)`: scan left to
right; at each word-boundary position try the alternatives in order; the
capture group 2 is returned. -/
def toFromAux (prev : Option Char) : List Char → Option (List Char)
  | [] => none
  | c :: rest =>
    let here :=
      if isWordOpt prev then none
      else
        match tfbAt ['T', 'O'] (c :: rest) with
        | some g => some g
        | none =>
          match tfbAt ['F', 'R', 'O', 'M'] (c :: rest) with
          | some g => some g
          | none => tfbAt ['B', 'Y'] (c :: rest)
    match here with
    | some g => some g
    | none => toFromAux (some c) rest

/-- Fallback meaningful words: tokens longer than 3 characters that are not
pure digit runs. -/
def fallbackWords (cs : List Char) : List (List Char) :=
  (splitWs cs).filter (fun w => 3 < w.length && !(isdigitAll w))

/-- The cache-missing strategy chain of `_extract_party` (known merchant,
UPI handle, TO/FROM/BY pattern, generic fallback), with its confidence. -/
def computeParty (narr : String) : Option String × ℚ :=
  let cs := narr.data
  match merchantMatch cs with
  | some name => (some name, mkRat 19 20)
  | none =>
    match upiHandleAux cs with
    | some run => (some (String.mk run), mkRat 17 20)
    | none =>
      match toFromAux none cs with
      | some g => ((cleanParty g).map String.mk, mkRat 7 10)
      | none =>
        let ws := fallbackWords cs
        if ws.isEmpty then (none, mkRat 1 10)
        else
          let p := (cleanParty (joinSpace (ws.take 3))).map String.mk
          (p, match p with
              | some q => if q = "" then mkRat 1 10 else mkRat 2 5
              | none => mkRat 1 10)

/-- The per-instance party cache (`self.party_cache`); later inserts shadow
earlier entries on lookup, which models dict assignment. -/
abbrev PartyCache := List (String × (Option String × ℚ))

def cacheLookup (c : PartyCache) (k : String) : Option (Option String × ℚ) :=
  (c.find? (fun kv => kv.1 = k)).map (fun kv => kv.2)

/-- Python `narration[:80]`. -/
def pyTake80 (s : String) : String := String.mk (s.data.take 80)

/-- `ExcelProcessor._extract_party`: empty narration short-circuits with
`(None, 0.0)` (uncached); otherwise a cache hit returns the cached pair and
a miss runs the strategy chain and caches the result under the first 80
characters of the narration. -/
def extractParty (c : PartyCache) (narr : String) :
    (Option String × ℚ) × PartyCache :=
  if narr = "" then ((none, 0), c)
  else
    let key := pyTake80 narr
    match cacheLookup c key with
    | some v => (v, c)
    | none =>
      let v := computeParty narr
      (v, (key, v) :: c)

/-! ### Claims C7 and C8: the party cache and the confidence bands -/

lemma pyTake80_eq_empty {s : String} (h : pyTake80 s = "") : s = "" := by
  have hdata : s.data.take 80 = ([] : List Char) := congrArg String.data h
  rcases List.take_eq_nil_iff.mp hdata with h80 | hnil
  · exact absurd h80 (by decide)
  · cases s with
    | mk data =>
      cases hnil
      rfl

lemma cacheLookup_cons_self (k : String) (v : Option String × ℚ)
    (c : PartyCache) : cacheLookup ((k, v) :: c) k = some v := by
  simp [cacheLookup, List.find?]

/-- C7 counterexample: on an empty description (two calls with equal first-80
prefixes, both empty), `_extract_party` returns before touching the cache, so
after the first call the cache holds no entry for the key and the second call
cannot be served from the cache — refuting the claim that the second of every
such pair of calls is served from the cache. -/
theorem party_cache_cex :
    extractParty [] "" = ((none, 0), []) ∧
    cacheLookup (extractParty [] "").2 (pyTake80 "") = none := ⟨rfl, rfl⟩

/-- C7 (amended): for two calls on the same extractor instance with
descriptions sharing their first 80 characters, both calls return the same
`(party, confidence)` pair, and — provided the descriptions are non-empty —
the second call is served from the cache (its key is present in the cache
after the first call and yields exactly the returned pair) and leaves the
cache unchanged. -/
theorem party_cache_consistent (c : PartyCache) (n1 n2 : String)
    (hpre : pyTake80 n1 = pyTake80 n2) (hne : n1 ≠ "") :
    (extractParty c n1).1 = (extractParty (extractParty c n1).2 n2).1
    ∧ cacheLookup (extractParty c n1).2 (pyTake80 n2)
        = some (extractParty (extractParty c n1).2 n2).1
    ∧ (extractParty (extractParty c n1).2 n2).2 = (extractParty c n1).2 := by
  have hn2 : n2 ≠ "" := by
    intro he
    apply hne
    apply pyTake80_eq_empty
    rw [hpre, he]
    rfl
  cases hcl : cacheLookup c (pyTake80 n1) with
  | some v =>
    have e1 : extractParty c n1 = (v, c) := by
      unfold extractParty
      rw [if_neg hne]
      simp only [hcl]
    have e2 : extractParty c n2 = (v, c) := by
      unfold extractParty
      rw [if_neg hn2, ← hpre]
      simp only [hcl]
    rw [e1]
    refine ⟨by simp only [e2], ?_, by simp only [e2]⟩
    simp only [e2]
    rw [← hpre]
    exact hcl
  | none =>
    have e1 : extractParty c n1
        = (computeParty n1, (pyTake80 n1, computeParty n1) :: c) := by
      unfold extractParty
      rw [if_neg hne]
      simp only [hcl]
    have hlk : cacheLookup ((pyTake80 n1, computeParty n1) :: c) (pyTake80 n2)
        = some (computeParty n1) := by
      rw [← hpre]
      exact cacheLookup_cons_self _ _ _
    have e2 : extractParty ((pyTake80 n1, computeParty n1) :: c) n2
        = (computeParty n1, (pyTake80 n1, computeParty n1) :: c) := by
      unfold extractParty
      rw [if_neg hn2]
      simp only [hlk]
    rw [e1]
    refine ⟨by simp only [e2], ?_, by simp only [e2]⟩
    simp only [e2]
    exact hlk

/-- C7 witness: a concrete repeated call (known-merchant narration) on a
fresh extractor returns the identical pair both times. -/
theorem party_cache_consistent_witness :
    (extractParty [] "UPI AMAZON PAY").1
      = (extractParty (extractParty [] "UPI AMAZON PAY").2 "UPI AMAZON PAY").1 :=
  (party_cache_consistent [] "UPI AMAZON PAY" "UPI AMAZON PAY" rfl
    (by decide)).1

/-- The five confidence bands of the strategy chain:
0.95, 0.85, 0.70, 0.40, 0.10. -/
def confBands : List ℚ :=
  [mkRat 19 20, mkRat 17 20, mkRat 7 10, mkRat 2 5, mkRat 1 10]

/-- Every confidence stored in the cache lies in the fixed bands. -/
def cacheWF (c : PartyCache) : Prop := ∀ kv ∈ c, kv.2.2 ∈ confBands

lemma computeParty_bands (n : String) : (computeParty n).2 ∈ confBands := by
  unfold computeParty
  cases h1 : merchantMatch n.data with
  | some name => simp [h1, confBands]
  | none =>
    cases h2 : upiHandleAux n.data with
    | some run => simp [h1, h2, confBands]
    | none =>
      cases h3 : toFromAux none n.data with
      | some g => simp [h1, h2, h3, confBands]
      | none =>
        by_cases h4 : fallbackWords n.data = []
        · simp [h1, h2, h3, h4, confBands]
        · cases hp : (cleanParty (joinSpace ((fallbackWords n.data).take 3))).map
              String.mk with
          | none => simp [h1, h2, h3, h4, hp, confBands]
          | some q =>
            by_cases hq : q = "" <;> simp [h1, h2, h3, h4, hp, hq, confBands]

/-- C8: for every non-empty narration (and any cache state whose stored
confidences already lie in the bands, as every reachable cache does), the
confidence returned by `_extract_party` is exactly one of the fixed bands
0.95 (known merchant), 0.85 (UPI handle), 0.70 (TO/FROM/BY pattern),
0.40/0.10 (generic fallback); the invariant is preserved, and the bands are
strictly ordered, so they strictly order strategy trust. -/
theorem party_confidence_bands (c : PartyCache) (n : String)
    (hwf : cacheWF c) (hne : n ≠ "") :
    (extractParty c n).1.2 ∈ confBands
    ∧ cacheWF (extractParty c n).2
    ∧ mkRat 17 20 < mkRat 19 20 ∧ mkRat 7 10 < mkRat 17 20
    ∧ mkRat 2 5 < mkRat 7 10 ∧ mkRat 1 10 < mkRat 2 5 := by
  cases hcl : cacheLookup c (pyTake80 n) with
  | some v =>
    have e1 : extractParty c n = (v, c) := by
      unfold extractParty
      rw [if_neg hne]
      simp only [hcl]
    have hv : v.2 ∈ confBands := by
      unfold cacheLookup at hcl
      cases hf : List.find? (fun kv => kv.1 = pyTake80 n) c with
      | none => rw [hf] at hcl; cases hcl
      | some kv =>
        rw [hf] at hcl
        have hv2 : kv.2 = v := by
          simpa using hcl
        rw [← hv2]
        exact hwf kv (List.mem_of_find?_eq_some hf)
    rw [e1]
    exact ⟨hv, hwf, by decide, by decide, by decide, by decide⟩
  | none =>
    have e1 : extractParty c n
        = (computeParty n, (pyTake80 n, computeParty n) :: c) := by
      unfold extractParty
      rw [if_neg hne]
      simp only [hcl]
    rw [e1]
    refine ⟨computeParty_bands n, ?_, by decide, by decide, by decide,
      by decide⟩
    intro kv hkv
    rcases List.mem_cons.mp hkv with rfl | hm
    · exact computeParty_bands n
    · exact hwf kv hm

/-- C8 witness: a fresh extractor on the narration `"X"` (no tokens longer
than 3 characters) returns the 0.10 band. -/
theorem party_confidence_bands_witness :
    (extractParty [] "X").1.2 ∈ confBands :=
  (party_confidence_bands [] "X" (fun kv hkv => absurd hkv
    (List.not_mem_nil kv)) (by decide)).1

/-! ### The Excel row parser (`ExcelProcessor._extract_from_dataframe`) -/

/-- Nearest integer to `n / d` with ties to even (Python `round`). -/
def roundHalfEven (n : Int) (d : Nat) : Int :=
  let q := n.fdiv d
  let r := n.fmod d
  if 2 * r < d then q
  else if (d : Int) < 2 * r then q + 1
  else if q % 2 = 0 then q else q + 1

/-- Python `round(x, 3)`. -/
def round3 (q : ℚ) : ℚ := mkRat (roundHalfEven (q.num * 1000) q.den) 1000

def upiWords : List String := ["UPI", "@", "GPAY", "PHONEPE", "PAYTM", "BHIM"]

def transferWords : List String := ["NEFT", "IMPS", "RTGS", "TRANSFER", "TRF"]

/-- `re.search(r'\b(UPI|@|GPAY|PHONEPE|PAYTM|BHIM)\b', ·)` as a flag. -/
def isUpiFlag (cs : List Char) : Bool :=
  upiWords.any (fun w => containsWord w.data cs)

/-- `re.search(r'\b(NEFT|IMPS|RTGS|TRANSFER|TRF)\b', ·)` as a flag. -/
def isTransferFlag (cs : List Char) : Bool :=
  transferWords.any (fun w => containsWord w.data cs)

/-- One spreadsheet row after `_normalize_columns`: the six canonical cells,
each either missing (`None`/`NaN`) or a string rendering of the cell. -/
structure Row where
  date : Option String
  description : Option String
  credit : Option String
  debit : Option String
  balance : Option String
  amount : Option String
deriving DecidableEq

/-- The transaction dict appended by `_extract_from_dataframe`. -/
structure ExcelTxn where
  date : Option String
  description : String
  amount : ℚ
  credit : ℚ
  debit : ℚ
  balance : ℚ
  party : Option String
  detected_party : Option String
  party_confidence : ℚ
  source : String
  source_file : String
  source_sheet : String
  is_upi : Bool
  is_transfer : Bool
deriving DecidableEq

/-- The body of the row loop of `_extract_from_dataframe`: parse the cells,
skip the row when credit, debit and the generic amount are all zero and the
description is empty, otherwise resolve the signed amount
(credit > 0 → credit; else debit > 0 → −debit; else the amount column),
extract the party (threading the cache) and emit the record. -/
def processRowE (cache : PartyCache) (r : Row) (filename sheet : String) :
    Option ExcelTxn × PartyCache :=
  let date := parseDateCell r.date
  let desc := normalizeText r.description
  let credit := parseAmountCell r.credit
  let debit := parseAmountCell r.debit
  let balance := parseAmountCell r.balance
  let amountCol := parseAmountCell r.amount
  if credit = 0 ∧ debit = 0 ∧ amountCol = 0 ∧ desc = "" then (none, cache)
  else
    let amount := if 0 < credit then credit
      else if 0 < debit then -debit
      else amountCol
    let pc := extractParty cache desc
    (some {
      date := date, description := desc, amount := amount, credit := credit,
      debit := debit, balance := balance, party := pc.1.1,
      detected_party := pc.1.1, party_confidence := round3 pc.1.2,
      source := "excel", source_file := filename, source_sheet := sheet,
      is_upi := isUpiFlag desc.data, is_transfer := isTransferFlag desc.data },
     pc.2)

/-- C1: for every emitted tabular row, the signed amount follows the
credit/debit/amount precedence: it equals the parsed credit value when that
is positive, else the negated parsed debit value when that is positive, else
the parsed generic amount column value. -/
theorem tabular_amount_precedence (c : PartyCache) (r : Row)
    (f sh : String) (t : ExcelTxn) (c2 : PartyCache)
    (h : processRowE c r f sh = (some t, c2)) :
    (0 < parseAmountCell r.credit → t.amount = parseAmountCell r.credit)
    ∧ (¬ 0 < parseAmountCell r.credit → 0 < parseAmountCell r.debit →
        t.amount = -parseAmountCell r.debit)
    ∧ (¬ 0 < parseAmountCell r.credit → ¬ 0 < parseAmountCell r.debit →
        t.amount = parseAmountCell r.amount) := by
  unfold processRowE at h
  by_cases hskip : (parseAmountCell r.credit = 0 ∧ parseAmountCell r.debit = 0
      ∧ parseAmountCell r.amount = 0 ∧ normalizeText r.description = "")
  · rw [if_pos hskip] at h
    exact absurd (congrArg Prod.fst h) (by simp)
  · rw [if_neg hskip] at h
    have ht := Option.some.inj (congrArg Prod.fst h)
    refine ⟨fun hc => ?_, fun hc hd => ?_, fun hc hd => ?_⟩ <;>
      rw [← ht] <;> simp [hc]
    · simp [hd]
    · simp [hd]

def witnessRow : Row :=
  { date := none, description := some "SALARY", credit := some "100",
    debit := none, balance := none, amount := none }

def witnessTxn : ExcelTxn :=
  { date := none, description := "SALARY", amount := 100, credit := 100,
    debit := 0, balance := 0, party := some "SALARY",
    detected_party := some "SALARY", party_confidence := mkRat 2 5,
    source := "excel", source_file := "", source_sheet := "",
    is_upi := false, is_transfer := false }

/-- C1 witness: a concrete row with credit `100` is emitted with
amount `100`. -/
theorem tabular_amount_precedence_witness :
    0 < parseAmountCell witnessRow.credit
    ∧ witnessTxn.amount = parseAmountCell witnessRow.credit :=
  ⟨by decide,
   (tabular_amount_precedence [] witnessRow "" "" witnessTxn
     [("SALARY", (some "SALARY", mkRat 2 5))] (by decide)).1 (by decide)⟩

/-- C5 counterexample: a row whose date cell holds the parseable date
`01-01-2024` (normalized to `01/01/2024`, hence usable) but whose
description is empty and whose amount cells are all missing is discarded by
the row parser — refuting the claim that every row with a usable date is
emitted: the discard condition never consults the date. -/
def discardRow : Row :=
  { date := some "01-01-2024", description := none, credit := none,
    debit := none, balance := none, amount := none }

theorem row_discard_cex :
    (processRowE [] discardRow "" "").1 = none
    ∧ parseDateCell discardRow.date = some "01/01/2024" := by
  exact ⟨by decide, by decide⟩

/-- C5 (amended): a tabular row is discarded if and only if its description
normalizes to empty and its credit, debit and generic amount cells all parse
to zero; the date plays no role in the discard decision. -/
theorem row_discard_iff (c : PartyCache) (r : Row) (f sh : String) :
    (processRowE c r f sh).1 = none
    ↔ (normalizeText r.description = "" ∧ parseAmountCell r.credit = 0
        ∧ parseAmountCell r.debit = 0 ∧ parseAmountCell r.amount = 0) := by
  unfold processRowE
  by_cases hskip : (parseAmountCell r.credit = 0 ∧ parseAmountCell r.debit = 0
      ∧ parseAmountCell r.amount = 0 ∧ normalizeText r.description = "")
  · rw [if_pos hskip]
    constructor
    · intro _
      exact ⟨hskip.2.2.2, hskip.1, hskip.2.1, hskip.2.2.1⟩
    · intro _
      rfl
  · rw [if_neg hskip]
    constructor
    · intro hnone
      exact absurd hnone (by simp)
    · intro hr
      exact absurd ⟨hr.2.1, hr.2.2.1, hr.2.2.2, hr.1⟩ hskip

/-! ### The categorizer (`TransactionCategorizer`)

The category patterns are literal fragments joined by `.*`; with both the
pattern and the description lower-cased (`re.IGNORECASE` on lower-cased
patterns), `re.search` holds iff the fragments occur in the description in
order (single-line descriptions; this pipeline's descriptions contain no
newline).  Pattern length (`len(pattern)`) counts the characters of the
pattern string, `.*` included. -/

/-- Split a pattern on the (only) regex construct it uses, `.*`. -/
def splitDotStar : List Char → List (List Char)
  | [] => [[]]
  | '.' :: '*' :: rest => [] :: splitDotStar rest
  | c :: rest =>
    match splitDotStar rest with
    | seg :: segs => (c :: seg) :: segs
    | [] => [[c]]

/-- The rest of `cs` after the first occurrence of the literal `p`. -/
def findDrop (p : List Char) : List Char → Option (List Char)
  | [] => if p.isEmpty then some [] else none
  | c :: rest =>
    match dropPref p (c :: rest) with
    | some r2 => some r2
    | none => findDrop p rest

/-- The fragments occur in order (≡ `re.search` of the `.*`-pattern). -/
def matchSegs : List (List Char) → List Char → Bool
  | [], _ => true
  | seg :: segs, cs =>
    match findDrop seg cs with
    | some rest => matchSegs segs rest
    | none => false

/-- `re.search(pattern, description)` for the categorizer's patterns. -/
def matchesPat (p d : String) : Bool := matchSegs (splitDotStar p.data) d.data

def pyLowerStr (s : String) : String := String.mk (s.data.map pyLowerC)

/-- `TransactionCategorizer._build_category_patterns`, in insertion order. -/
def categoryPatterns : List (String × List String) :=
  [("Income",
    ["salary", "payroll", "wages", "income", "credit.*salary", "employer",
     "pay.*credit", "salary.*credit", "salary.*transfer"]),
   ("Reward/Cashback",
    ["reward", "cashback", "bonus", "cash.*back", "loyalty",
     "points.*credit", "reward.*points", "cashback.*credit"]),
   ("Refund",
    ["refund", "reversal", "chargeback", "return.*refund", "refund.*credit",
     "payment.*reversal", "refund.*received"]),
   ("Bill Payment",
    ["electricity", "water", "gas", "utility", "bill.*payment",
     "phone.*bill", "mobile.*bill", "internet.*bill", "cable.*bill"]),
   ("Subscription",
    ["subscription", "netflix", "spotify", "prime", "monthly.*fee",
     "annually", "recurring.*subscription", "auto.*debit.*subscription",
     "amazon.*prime", "youtube.*premium"]),
   ("EMI",
    ["emi", "loan.*emi", "installment", "loan.*repayment",
     "equated.*monthly", "home.*loan.*emi", "car.*loan.*emi"]),
   ("UPI Transfer",
    ["upi", "paytm", "phonepe", "gpay", "google.*pay", "upi.*transfer",
     "upi.*payment"]),
   ("Bank Transfer",
    ["neft", "rtgs", "imps", "bank.*transfer", "online.*transfer",
     "electronic.*transfer"]),
   ("Cash Flow",
    ["atm", "cash.*withdrawal", "cash.*atm", "withdrawal.*atm",
     "cash.*deposit"]),
   ("Loan",
    ["loan.*disbursement", "personal.*loan", "loan.*credit",
     "loan.*disbursed"]),
   ("Investment",
    ["investment", "mutual.*fund", "stocks", "shares", "fixed.*deposit",
     "fd", "rd", "sip.*investment"]),
   ("Expense",
    ["expense", "purchase", "payment", "debit", "pos.*transaction",
     "card.*payment"])]

/-- The inner pattern loop: the first pattern that matches AND strictly
beats the running maximum; the `break` then skips the category's remaining
patterns.  Patterns that match without improving do not stop the loop. -/
def firstImproving (d : String) (maxLen : Nat) : List String → Option String
  | [] => none
  | p :: ps =>
    if matchesPat p d && decide (maxLen < p.length) then some p
    else firstImproving d maxLen ps

/-- The category loop of `categorize_transaction`, carrying
`(max_match_length, matched_category)`. -/
def scanCats (d : String) :
    List (String × List String) → Nat → Option String → Nat × Option String
  | [], m, cat => (m, cat)
  | cps :: t, m, cat =>
    match firstImproving d m cps.2 with
    | some p => scanCats d t p.length (some cps.1)
    | none => scanCats d t m cat

/-- The selected category for a given table: the scan result, else the
credit/debit fallback, else `Unknown`. -/
def categorizeWith (tbl : List (String × List String)) (description : String)
    (credit debit : ℚ) : String :=
  let d := pyLowerStr description
  match (scanCats d tbl 0 none).2 with
  | some c => c
  | none =>
    if 0 < credit then "Income" else if 0 < debit then "Expense" else "Unknown"

def highRisk : List String :=
  ["casino", "gambling", "betting", "crypto", "bitcoin", "forex"]

def mediumRisk : List String :=
  ["online.*payment", "international", "foreign.*transaction"]

def lowRisk : List String := ["salary", "utility", "government", "bank"]

/-- `_calculate_merchant_risk`: first matching tier wins. -/
def merchantRiskScore (description : String) : ℚ :=
  let d := pyLowerStr description
  if highRisk.any (fun k => matchesPat k d) then mkRat 9 10
  else if mediumRisk.any (fun k => matchesPat k d) then mkRat 6 10
  else if lowRisk.any (fun k => matchesPat k d) then mkRat 2 10
  else mkRat 1 2

/-- `_determine_behavioral_deviation` (`credit or debit` picks credit when
it is truthy, i.e. nonzero, else debit). -/
def behavioralDeviation (credit debit : ℚ) (category : String) : String :=
  let amount := if credit ≠ 0 then credit else debit
  if 100000 < amount then "High Value"
  else if amount < 10 then "Micro Transaction"
  else if category = "Unknown" then "Uncategorized"
  else "Normal"

/-- `categorize_transaction`: category, merchant risk, narration-risk
confidence, behavioral deviation.  (`round(·, 3)` is applied to the risk
and confidence by the Python code.) -/
def categorizeTransaction (description : String) (credit debit : ℚ) :
    String × ℚ × ℚ × String :=
  let d := pyLowerStr description
  let scan := scanCats d categoryPatterns 0 none
  let category := categorizeWith categoryPatterns description credit debit
  let conf : ℚ :=
    match scan.2 with
    | some _ => min (mkRat 19 20) (mkRat (50 + scan.1) 100)
    | none => mkRat 3 10
  (category, round3 (merchantRiskScore description), round3 conf,
   behavioralDeviation credit debit category)

/-- Follows the spec's words (for the refinement comparison of C4): test
every pattern of every category and select the pair whose pattern string is
longest, keeping the earliest among equals. -/
def specLongestMatch (tbl : List (String × List String)) (d : String) :
    Option (String × String) :=
  tbl.foldl
    (fun acc cps =>
      cps.2.foldl
        (fun acc2 p =>
          if matchesPat p d then
            match acc2 with
            | some prev => if prev.2.length < p.length then some (cps.1, p)
                           else acc2
            | none => some (cps.1, p)
          else acc2)
        acc)
    none

/-- C4 counterexample: on the description `"salary bank transfer"` the code
selects `Bank Transfer` (Income's `salary` matches first with length 6 and
the `break` skips the rest of Income's patterns; Bank Transfer's
`bank.*transfer` then wins with length 14), although the longest matching
pattern over the whole table is Income's `salary.*transfer` of length 16 —
refuting longest-pattern-wins independence of iteration order. -/
theorem categorizer_longest_cex :
    categorizeWith categoryPatterns "salary bank transfer" 0 0
        = "Bank Transfer"
    ∧ specLongestMatch categoryPatterns
        (pyLowerStr "salary bank transfer")
        = some ("Income", "salary.*transfer") := by
  exact ⟨by decide, by decide⟩

/-- At most one pattern of the list matches the description (any two
matching patterns are equal). -/
def uniqueMatches (d : String) (ps : List String) : Prop :=
  ∀ p ∈ ps, ∀ q ∈ ps, matchesPat p d = true → matchesPat q d = true → p = q

lemma firstImproving_some {d : String} {m : Nat} {ps : List String}
    {p : String} (h : firstImproving d m ps = some p) :
    p ∈ ps ∧ matchesPat p d = true ∧ m < p.length := by
  induction ps with
  | nil => cases h
  | cons a t ih =>
    unfold firstImproving at h
    by_cases ha : (matchesPat a d && decide (m < a.length)) = true
    · rw [if_pos ha] at h
      injection h with h
      subst h
      obtain ⟨h1, h2⟩ : matchesPat a d = true ∧ decide (m < a.length) = true := by
        simpa using ha
      exact ⟨List.mem_cons_self a t, h1, of_decide_eq_true h2⟩
    · rw [if_neg ha] at h
      obtain ⟨hm, hmatch, hlt⟩ := ih h
      exact ⟨List.mem_cons_of_mem a hm, hmatch, hlt⟩

lemma firstImproving_none_bound {d : String} {m : Nat} {ps : List String}
    (h : firstImproving d m ps = none) :
    ∀ q ∈ ps, matchesPat q d = true → q.length ≤ m := by
  induction ps with
  | nil => intro q hq; cases hq
  | cons a t ih =>
    unfold firstImproving at h
    by_cases ha : (matchesPat a d && decide (m < a.length)) = true
    · rw [if_pos ha] at h; cases h
    · rw [if_neg ha] at h
      intro q hq hqm
      rcases List.mem_cons.mp hq with rfl | hmt
      · by_cases hl : q.length ≤ m
        · exact hl
        · exact absurd (by rw [hqm]; simpa using Nat.lt_of_not_le hl) ha
      · exact ih h q hmt hqm

lemma firstImproving_some_max {d : String} {m : Nat} {ps : List String}
    {p : String} (hu : uniqueMatches d ps)
    (h : firstImproving d m ps = some p) :
    ∀ q ∈ ps, matchesPat q d = true → q.length ≤ p.length := by
  obtain ⟨hmem, hmatch, _⟩ := firstImproving_some h
  intro q hq hqm
  rw [hu q hq p hmem hqm hmatch]

lemma scanCats_spec (d : String) :
    ∀ (tbl : List (String × List String)) (m : Nat) (cat : Option String),
    (∀ cps ∈ tbl, uniqueMatches d cps.2) →
    m ≤ (scanCats d tbl m cat).1
    ∧ (∀ cps ∈ tbl, ∀ q ∈ cps.2, matchesPat q d = true →
        q.length ≤ (scanCats d tbl m cat).1)
    ∧ (scanCats d tbl m cat = (m, cat)
       ∨ ∃ cps ∈ tbl, ∃ p ∈ cps.2,
           (scanCats d tbl m cat).2 = some cps.1 ∧ matchesPat p d = true
           ∧ p.length = (scanCats d tbl m cat).1
           ∧ m < (scanCats d tbl m cat).1) := by
  intro tbl
  induction tbl with
  | nil =>
    intro m cat _
    exact ⟨Nat.le_refl m, fun cps hcps => absurd hcps (List.not_mem_nil cps),
      Or.inl rfl⟩
  | cons cps t ih =>
    intro m cat huniq
    have hut : ∀ c2 ∈ t, uniqueMatches d c2.2 :=
      fun c2 hc2 => huniq c2 (List.mem_cons_of_mem cps hc2)
    cases hfi : firstImproving d m cps.2 with
    | some p =>
      have hstep : scanCats d (cps :: t) m cat
          = scanCats d t p.length (some cps.1) := by
        simp only [scanCats, hfi]
      obtain ⟨hpmem, hpmatch, hpgt⟩ := firstImproving_some hfi
      obtain ⟨ih1, ih2, ih3⟩ := ih p.length (some cps.1) hut
      rw [hstep]
      refine ⟨Nat.le_of_lt (Nat.lt_of_lt_of_le hpgt ih1), ?_, ?_⟩
      · intro cps2 hc2 q hq hqm
        rcases List.mem_cons.mp hc2 with rfl | hmt
        · exact Nat.le_trans
            (firstImproving_some_max (huniq cps2 (List.mem_cons_self cps2 t))
              hfi q hq hqm) ih1
        · exact ih2 cps2 hmt q hq hqm
      · rcases ih3 with heq | ⟨cps2, hm2, p2, hp2, hcat2, hmatch2, hlen2, _⟩
        · refine Or.inr ⟨cps, List.mem_cons_self cps t, p, hpmem, ?_, hpmatch,
            ?_, ?_⟩
          · rw [heq]
          · rw [heq]
          · rw [heq]; exact hpgt
        · exact Or.inr ⟨cps2, List.mem_cons_of_mem cps hm2, p2, hp2, hcat2,
            hmatch2, hlen2, Nat.lt_of_lt_of_le hpgt ih1⟩
    | none =>
      have hstep : scanCats d (cps :: t) m cat = scanCats d t m cat := by
        simp only [scanCats, hfi]
      obtain ⟨ih1, ih2, ih3⟩ := ih m cat hut
      rw [hstep]
      refine ⟨ih1, ?_, ?_⟩
      · intro cps2 hc2 q hq hqm
        rcases List.mem_cons.mp hc2 with rfl | hmt
        · exact Nat.le_trans (firstImproving_none_bound hfi q hq hqm) ih1
        · exact ih2 cps2 hmt q hq hqm
      · rcases ih3 with heq | ⟨cps2, hm2, p2, hp2, hcat2, hmatch2, hlen2, hgt2⟩
        · exact Or.inl heq
        · exact Or.inr ⟨cps2, List.mem_cons_of_mem cps hm2, p2, hp2, hcat2,
            hmatch2, hlen2, hgt2⟩

/-- C4 (amended): the categorizer scans categories in table order and, inside
a category, `break`s at the first matching pattern that strictly beats the
running maximum, skipping that category's remaining patterns.  Hence
longest-pattern-wins holds in the scan-order-independent form only when no
category contains two matching patterns: if every category has at most one
matching pattern (and some matching pattern is non-empty), the selected
category owns a matching pattern of maximal length over the whole table. -/
theorem categorizer_unique_longest (tbl : List (String × List String))
    (d : String) (cr db : ℚ)
    (huniq : ∀ cps ∈ tbl, uniqueMatches (pyLowerStr d) cps.2)
    (hex : ∃ cps ∈ tbl, ∃ p ∈ cps.2,
      matchesPat p (pyLowerStr d) = true ∧ 0 < p.length) :
    ∃ cps ∈ tbl, ∃ p ∈ cps.2,
      categorizeWith tbl d cr db = cps.1
      ∧ matchesPat p (pyLowerStr d) = true
      ∧ ∀ cps2 ∈ tbl, ∀ q ∈ cps2.2, matchesPat q (pyLowerStr d) = true →
          q.length ≤ p.length := by
  obtain ⟨h1, h2, h3⟩ := scanCats_spec (pyLowerStr d) tbl 0 none huniq
  obtain ⟨cps0, hc0, p0, hp0, hm0, hl0⟩ := hex
  have hpos : 0 < (scanCats (pyLowerStr d) tbl 0 none).1 :=
    Nat.lt_of_lt_of_le hl0 (h2 cps0 hc0 p0 hp0 hm0)
  rcases h3 with heq | ⟨cps, hmem, p, hpmem, hcat, hmatch, hlen, _⟩
  · rw [heq] at hpos
    exact absurd hpos (Nat.lt_irrefl 0)
  · refine ⟨cps, hmem, p, hpmem, ?_, hmatch, ?_⟩
    · simp only [categorizeWith]
      rw [hcat]
    · intro cps2 hm2 q hq hqm
      exact hlen ▸ h2 cps2 hm2 q hq hqm

instance uniqueMatchesDec (d : String) (ps : List String) :
    Decidable (uniqueMatches d ps) := by
  unfold uniqueMatches
  infer_instance

/-- C4 witness: on `"netflix"` every category has at most one matching
pattern; the selected category (`Subscription`) owns the longest matching
pattern. -/
theorem categorizer_unique_longest_witness :
    ∃ cps ∈ categoryPatterns, ∃ p ∈ cps.2,
      categorizeWith categoryPatterns "netflix" 0 0 = cps.1
      ∧ matchesPat p (pyLowerStr "netflix") = true
      ∧ ∀ cps2 ∈ categoryPatterns, ∀ q ∈ cps2.2,
          matchesPat q (pyLowerStr "netflix") = true →
          q.length ≤ p.length :=
  categorizer_unique_longest categoryPatterns "netflix" 0 0
    (by decide) (by decide)

/-! ### The Type Disambiguator (spec §4.4) -/

inductive TxnType where
  | credit
  | debit
deriving DecidableEq

def creditMarkers : List String :=
  ["CREDIT", "CR", "DEPOSIT", "SALARY", "INCOME"]

def debitMarkers : List String :=
  ["DEBIT", "DR", "WDL", "WITHDRAWAL", "PAID"]

/-- The rightmost whole-word occurrence position of any of the markers. -/
def lastMarkerPos (markers : List String) (cs : List Char) : Option Nat :=
  (markers.flatMap (fun w => wordOccs w.data cs)).foldl
    (fun acc i =>
      match acc with
      | none => some i
      | some j => some (max i j))
    none

/-- Modelled from the spec: the Type Disambiguator of §4.4 is code of this
repository that is not present under `src/` (no source file implements the
CREDIT/DEBIT disambiguation); the definition follows the spec's words.
Policy in order: (1) keyword scan of the block text for explicit credit
markers (`CREDIT`, `CR`, `DEPOSIT`, `SALARY`, `INCOME`) and debit markers
(`DEBIT`, `DR`, `WDL`, `WITHDRAWAL`, `PAID`); (2) when both marker types
occur, the marker with the rightmost character position wins; (3) phrase
fallback `PAID TO` → debit, `RECEIVED FROM` → credit, `DEPOSIT` → credit,
`WITHDRAWAL` → debit; (4) default DEBIT. -/
def disambiguateType (s : String) : TxnType :=
  let cs := s.data
  match lastMarkerPos creditMarkers cs, lastMarkerPos debitMarkers cs with
  | some pc, some pd => if pc < pd then TxnType.debit else TxnType.credit
  | some _, none => TxnType.credit
  | none, some _ => TxnType.debit
  | none, none =>
    if isSubstr "PAID TO".data cs then TxnType.debit
    else if isSubstr "RECEIVED FROM".data cs then TxnType.credit
    else if isSubstr "DEPOSIT".data cs then TxnType.credit
    else if isSubstr "WITHDRAWAL".data cs then TxnType.debit
    else TxnType.debit

/-- C3: whenever a block text contains both credit-type and debit-type
keyword markers, the Type Disambiguator resolves the transaction type by the
marker with the rightmost character position, without consulting the phrase
fallback or the default. -/
theorem type_rightmost_marker (s : String) (pc pd : Nat)
    (hc : lastMarkerPos creditMarkers s.data = some pc)
    (hd : lastMarkerPos debitMarkers s.data = some pd) :
    disambiguateType s
      = (if pc < pd then TxnType.debit else TxnType.credit) := by
  simp only [disambiguateType]
  rw [hc, hd]

/-- C3 witness: `"PAYMENT CR TO MERCHANT DR"` has its rightmost credit
marker (`CR`) at position 8 and its rightmost debit marker (`DR`) at
position 23, so it resolves to DEBIT. -/
theorem type_rightmost_marker_witness :
    disambiguateType "PAYMENT CR TO MERCHANT DR" = TxnType.debit := by
  have h := type_rightmost_marker "PAYMENT CR TO MERCHANT DR" 8 23
    (by decide) (by decide)
  simpa using h

/-! ### The PDF text parser (`PDFProcessor._parse_text` and helpers) -/

def skipPatterns : List String :=
  ["Eachdepositor", "Account,", "Important", "Bandhan", "Unless",
   "Account No", "Product Type", "Account Type", "MAB", "Nominee",
   "Joint Holder", "Branch Address", "Opening Balance", "Total Debit",
   "Total Credit", "END OF STATEMENT", "STATEMENT OF ACCOUNT", "DATEVALUE",
   "DATECHEQUE", "INSTRUMENT", "GOREGAON", "From Date", "To Date",
   "TRANS VALUE", "CHEQUE /", "DESCRIPTION", "DEBITS CREDITS", "BALANCE",
   "DATE DATE", "INSTRUMENT", "Statement Summary", "Customer Number",
   "Currency Name", "Capitalized"]

/-- `PDFProcessor._is_header_line`: any skip pattern occurs (case folded). -/
def isHeaderLine (cs : List Char) : Bool :=
  skipPatterns.any (fun p =>
    isSubstr (p.data.map pyUpperC) (cs.map pyUpperC))

/-- The fixed-width date pattern `(\d{2})-([A-Za-z]{3})-` at this position:
`(day digits, month letters)`. -/
def dateAt : List Char → Option (List Char × List Char)
  | a :: b :: h1 :: c :: d :: e :: s1 :: _ =>
    if isDigitC a && isDigitC b && h1 = '-' && isAlphaC c && isAlphaC d &&
        isAlphaC e && s1 = '-' then
      some ([a, b], [c, d, e])
    else none
  | _ => none

/-- `re.search(r'(\d{2})-([A-Za-z]{3})-', line)`: leftmost occurrence. -/
def dateSearch : List Char → Option (List Char × List Char)
  | [] => none
  | x :: rest =>
    match dateAt (x :: rest) with
    | some r => some r
    | none => dateSearch rest

/-- The year-line look-ahead: `^(\d{4})\s+\d{4}`, else `^\d{4}\s+[A-Z]`. -/
def yearOf (cs : List Char) : Option (List Char) :=
  match cs with
  | a :: b :: c :: d :: rest =>
    if isDigitC a && isDigitC b && isDigitC c && isDigitC d then
      let ws := rest.takeWhile isSpaceC
      let r2 := rest.drop ws.length
      if !ws.isEmpty &&
          (match r2 with
           | e :: f :: g :: h1 :: _ =>
             isDigitC e && isDigitC f && isDigitC g && isDigitC h1
           | _ => false) then
        some [a, b, c, d]
      else if !ws.isEmpty &&
          (match r2 with
           | e :: _ => isUpperC e
           | [] => false) then
        some [a, b, c, d]
      else none
    else none
  | _ => none

def monthMap : List (String × String) :=
  [("JAN", "01"), ("FEB", "02"), ("MAR", "03"), ("APR", "04"),
   ("MAY", "05"), ("JUN", "06"), ("JUL", "07"), ("AUG", "08"),
   ("SEP", "09"), ("OCT", "10"), ("NOV", "11"), ("DEC", "12")]

/-- `self.month_map.get(month_str.upper(), '01')`. -/
def monthOf (mon : List Char) : List Char :=
  match (monthMap.find? (fun kv => kv.1.data == mon.map pyUpperC)).map
      (fun kv => kv.2) with
  | some s => s.data
  | none => ['0', '1']

/-- One `re.findall(r'[\d,]+\.\d{2}')` match attempt at this position:
a maximal `[\d,]+` run, a dot, exactly two digits. -/
def amountAt (cs : List Char) : Option (List Char × List Char) :=
  let run := cs.takeWhile (fun c => isDigitC c || c = ',')
  if run.isEmpty then none
  else
    match cs.drop run.length with
    | '.' :: a :: b :: rest =>
      if isDigitC a && isDigitC b then
        some (run ++ '.' :: [a, b], rest)
      else none
    | _ => none

/-- `re.findall(self.amount_pattern, line)`: non-overlapping matches, left
to right. -/
def findAmountsAux : Nat → List Char → List (List Char)
  | 0, _ => []
  | _ + 1, [] => []
  | fuel + 1, c :: rest =>
    match amountAt (c :: rest) with
    | some (m, r2) => m :: findAmountsAux fuel r2
    | none => findAmountsAux fuel rest

def findAmounts (cs : List Char) : List (List Char) :=
  findAmountsAux cs.length cs

/-- `float(a.replace(',', ''))` inside `try`/`except`. -/
def parseMatched (m : List Char) : Option ℚ :=
  pyFloatChars (m.filter (fun c => !(c = ',')))

/-- `[A-Z\s]` character class. -/
def classUP (c : Char) : Bool := isUpperC c || isSpaceC c

/-- The lazy `[A-Z\s]+?` run: the shortest non-empty prefix of the class
after which `tailOk` holds. -/
def lazyRun (tailOk : List Char → Bool) : List Char → Option (List Char)
  | [] => none
  | c :: rest =>
    if classUP c then
      if tailOk rest then some [c]
      else
        match lazyRun tailOk rest with
        | some r => some (c :: r)
        | none => none
    else none

/-- The capture `([A-Z][A-Z\s]+?)` followed by `tailOk`. -/
def capLazy (tailOk : List Char → Bool) : List Char → Option (List Char)
  | c0 :: rest =>
    if isUpperC c0 then
      match lazyRun tailOk rest with
      | some r => some (c0 :: r)
      | none => none
    else none
  | [] => none

/-- `(?:\s|$)`. -/
def tailWsOrEnd (cs : List Char) : Bool :=
  match cs with
  | [] => true
  | c :: _ => isSpaceC c

/-- `(?:\s*$|\d)`. -/
def tailEndOrDigit (cs : List Char) : Bool :=
  (cs.dropWhile isSpaceC).isEmpty ||
    (match cs with
     | c :: _ => isDigitC c
     | [] => false)

/-- `(?:MUMBAI|IN|KANDIVALI|$)`. -/
def tailPlaces (cs : List Char) : Bool :=
  isPrefixL "MUMBAI".data cs || isPrefixL "IN".data cs ||
    isPrefixL "KANDIVALI".data cs || cs.isEmpty

/-- Pattern 1 at a position: `UPI/(?:CR|DR)/\d+/([A-Z][A-Z\s]+?)(?:\s|$)`. -/
def pat1At (cs : List Char) : Option (List Char) :=
  match dropPref "UPI/".data cs with
  | none => none
  | some r1 =>
    let r2opt :=
      match dropPref "CR/".data r1 with
      | some x => some x
      | none => dropPref "DR/".data r1
    match r2opt with
    | none => none
    | some r2 =>
      let ds := r2.takeWhile isDigitC
      if ds.isEmpty then none
      else
        match r2.drop ds.length with
        | '/' :: r3 => capLazy tailWsOrEnd r3
        | _ => none

/-- Pattern 2 at a position: `UPI/(?:CR|DR)/([A-Z][A-Z\s]+?)(?:\s|$)`. -/
def pat2At (cs : List Char) : Option (List Char) :=
  match dropPref "UPI/".data cs with
  | none => none
  | some r1 =>
    let r2opt :=
      match dropPref "CR/".data r1 with
      | some x => some x
      | none => dropPref "DR/".data r1
    match r2opt with
    | none => none
    | some r2 => capLazy tailWsOrEnd r2

/-- Pattern 3 at a position:
`WDL[,\s]+(?:AT\s+)?\+?\s*([A-Z][A-Z\s]+?)(?:MUMBAI|IN|KANDIVALI|$)`
(the optional pieces are tried greedily, with fallback). -/
def pat3At (cs : List Char) : Option (List Char) :=
  match dropPref "WDL".data cs with
  | none => none
  | some r1 =>
    let run := r1.takeWhile (fun c => c = ',' || isSpaceC c)
    if run.isEmpty then none
    else
      let r2 := r1.drop run.length
      let atOpts : List (List Char) :=
        (match dropPref "AT".data r2 with
         | some rA =>
           let wsA := rA.takeWhile isSpaceC
           if wsA.isEmpty then [] else [rA.drop wsA.length]
         | none => []) ++ [r2]
      atOpts.findSome? (fun r3 =>
        let plusOpts : List (List Char) :=
          (match r3 with
           | '+' :: rP => [rP]
           | _ => []) ++ [r3]
        plusOpts.findSome? (fun r4 =>
          capLazy tailPlaces (r4.dropWhile isSpaceC)))

/-- Pattern 4 at a position:
`(?:DEPOSIT|CASH|PAYMENT|TRANSFER)[,\s]+([A-Z][A-Z\s]+?)(?:\s*$|\d)`. -/
def pat4At (cs : List Char) : Option (List Char) :=
  ["DEPOSIT", "CASH", "PAYMENT", "TRANSFER"].findSome? (fun kw =>
    match dropPref kw.data cs with
    | none => none
    | some r1 =>
      let run := r1.takeWhile (fun c => c = ',' || isSpaceC c)
      if run.isEmpty then none
      else capLazy tailEndOrDigit (r1.drop run.length))

/-- `re.search`: try the position function left to right (and at the end
position). -/
def scanFor (f : List Char → Option (List Char)) :
    List Char → Option (List Char)
  | [] => f []
  | c :: rest =>
    match f (c :: rest) with
    | some v => some v
    | none => scanFor f rest

def pdfCleanSkipWords : List String :=
  ["DEPOSIT", "CASH", "UPI", "CR", "DR", "WDL", "ATM", "DEP",
   "CHARGES", "FEE", "GST", "CARD", "AMC", "SELF", "IN", "MUMBAI",
   "KANDIVALI", "GOREGAON", "INDIA", "TRANSFER", "PAYMENT"]

/-- `PDFProcessor._clean_party_name`: upper-case and strip, remove digits,
replace `[^\w\s]` by a space, remove the skip words (whole-word), re-join. -/
def cleanPartyName (cs : List Char) : List Char :=
  if cs.isEmpty then []
  else
    let n1 := stripWs (cs.map pyUpperC)
    let n2 := n1.filter (fun c => !(isDigitC c))
    let n3 := n2.map (fun c => if isWordC c || isSpaceC c then c else ' ')
    let n4 := pdfCleanSkipWords.foldl
      (fun acc w => removeWordAll w.data acc) n3
    joinSpace (splitWs n4)

/-- The per-pattern guard `if party and len(party) >= 2: return party`. -/
def guard2 (p : List Char) : Option (List Char) :=
  if !p.isEmpty && 2 ≤ p.length then some p else none

def pdfFallbackSkipWords : List String :=
  ["DEPOSIT", "CASH", "UPI", "CR", "DR", "WDL", "ATM", "DEP", "SB",
   "CHARGES", "FEE", "GST", "CARD", "AMC", "INTEREST", "CASA",
   "CAPITALIZED", "NACH", "TRANSFER", "PAYMENT", "REVERSAL"]

/-- `^\d+\.\d+$`. -/
def decimalForm (cs : List Char) : Bool :=
  let a := cs.takeWhile isDigitC
  !a.isEmpty &&
    (match cs.drop a.length with
     | '.' :: b => !b.isEmpty && b.all isDigitC
     | _ => false)

/-- Pattern 5: the last-resort meaningful words of the line. -/
def meaningfulWords (cs : List Char) : List (List Char) :=
  (splitWs cs).filterMap (fun w =>
    let wc := stripSet ['.', ',', '-', '/'] w
    if 2 < wc.length &&
        !(pdfFallbackSkipWords.contains (String.mk (wc.map pyUpperC))) &&
        !(isdigitAll wc) && !(decimalForm wc) then
      some wc
    else none)

/-- `PDFProcessor._extract_party_from_line`: patterns 1-4 each guarded by
`len(party) >= 2`, then the meaningful-words fallback, then `"UNKNOWN"`. -/
def extractPartyFromLine (line : List Char) : List Char :=
  let desc := line.map pyUpperC
  match (scanFor pat1At desc).bind (fun g => guard2 (cleanPartyName (stripWs g))) with
  | some p => p
  | none =>
    match (scanFor pat2At desc).bind (fun g => guard2 (cleanPartyName (stripWs g))) with
    | some p => p
    | none =>
      match (scanFor pat3At desc).bind (fun g => guard2 (cleanPartyName (stripWs g))) with
      | some p => p
      | none =>
        match (scanFor pat4At desc).bind (fun g => guard2 (cleanPartyName (stripWs g))) with
        | some p => p
        | none =>
          let meaningful := meaningfulWords desc
          if meaningful.isEmpty then "UNKNOWN".data
          else joinSpace (meaningful.take 4)

/-- `str.replace(pat, '')` for a non-empty literal. -/
def replaceAllAux (pat : List Char) : Nat → List Char → List Char
  | 0, cs => cs
  | _ + 1, [] => []
  | fuel + 1, c :: rest =>
    match dropPref pat (c :: rest) with
    | some r2 => replaceAllAux pat fuel r2
    | none => c :: replaceAllAux pat fuel rest

def replaceAll (cs pat : List Char) : List Char :=
  if pat.isEmpty then cs else replaceAllAux pat cs.length cs

/-- `re.sub(r'\d{2}-[A-Za-z]{3}-', '', ·)`: remove all (non-overlapping)
date-pattern occurrences. -/
def removeDatePats : Nat → List Char → List Char
  | 0, cs => cs
  | _ + 1, [] => []
  | fuel + 1, c :: rest =>
    match dateAt (c :: rest) with
    | some _ => removeDatePats fuel ((c :: rest).drop 7)
    | none => c :: removeDatePats fuel rest

/-- `PDFProcessor._clean_description`. -/
def cleanDescription (line : List Char) : List Char :=
  let d1 := removeDatePats line.length line
  let d2 := removeDatePats d1.length d1
  let amts := findAmounts d2
  let d3 := amts.foldl (fun acc a => replaceAll acc a) d2
  let d4 := stripWs (collapseWs d3)
  let p := fun c => c = ',' || c = '-' || isSpaceC c
  stripWs (((d4.dropWhile p).reverse.dropWhile p).reverse)

/-- A transaction dict appended by `_parse_text`. -/
structure PdfTxn where
  date : String
  description : String
  credit : ℚ
  debit : ℚ
  balance : ℚ
  detected_party : String
  party : String
deriving DecidableEq

/-- The body of `_parse_text` after a date and year were found on the
current and next line: find the amounts; with at least three parsed amounts
take them positionally as `(debit, credit, balance)`; apply the balance
sanity bound and the party-length guard; emit. -/
def processMatchedLine (line : List Char) (dd mon year : List Char) :
    Option PdfTxn :=
  let parsed := (findAmounts line).filterMap parseMatched
  match parsed with
  | a :: b :: c :: _ =>
    if c ≤ 100000000 then
      let party := extractPartyFromLine line
      let desc := cleanDescription line
      if !party.isEmpty && 2 ≤ party.length then
        some { date := String.mk (dd ++ '/' :: (monthOf mon ++ '/' :: year)),
               description := String.mk desc, credit := b, debit := a,
               balance := c, detected_party := String.mk party,
               party := String.mk party }
      else none
    else none
  | _ => none

/-- The line loop of `_parse_text` (fuel = number of lines): skip blank and
header lines; on a date-pattern line read the year from the next line (no
year: advance one line); then process the line and advance two lines. -/
def parseTextAux : Nat → List (List Char) → List PdfTxn
  | 0, _ => []
  | _ + 1, [] => []
  | fuel + 1, l :: rest =>
    let line := stripWs l
    if line.isEmpty || isHeaderLine line then parseTextAux fuel rest
    else
      match dateSearch line with
      | none => parseTextAux fuel rest
      | some dm =>
        let year? := rest.head?.bind (fun nl => yearOf (stripWs nl))
        match year? with
        | none => parseTextAux fuel rest
        | some yr =>
          (match processMatchedLine line dm.1 dm.2 yr with
           | some t => [t]
           | none => []) ++ parseTextAux fuel (rest.drop 1)

/-- `PDFProcessor._parse_text`. -/
def parseText (text : String) : List PdfTxn :=
  let lines := splitOn '\n' text.data
  parseTextAux lines.length lines

/-! ### Claim C2: positional interpretation of the amounts -/

def c2Line : List Char := "01-Jan- DEPOSIT SOMEBODY 1.00 2.00 3.00 4.00".data

def c2Text : String := "01-Jan- DEPOSIT SOMEBODY 1.00 2.00 3.00 4.00\n2024 1234"

def c2Txn : PdfTxn :=
  { date := "01/01/2024", description := "DEPOSIT SOMEBODY", credit := 2,
    debit := 1, balance := 3, detected_party := "SOMEBODY",
    party := "SOMEBODY" }

/-- C2 counterexample: a block whose amount list is `[1, 2, 3, 4]` is
emitted with `(debit, credit, balance) = (1, 2, 3)` — the FIRST three
amounts.  Under the claim, with the last three amounts read positionally the
balance would be 4, and under its alternative (first = primary, last =
balance) the balance would also be 4; the code's balance is 3 ≠ 4, so the
claim fails on this input (there is no layout-detection branch in the
code). -/
theorem pdf_positional_cex :
    parseText c2Text = [c2Txn]
    ∧ (findAmounts c2Line).filterMap parseMatched = [1, 2, 3, 4]
    ∧ c2Txn.balance = 3 ∧ (3 : ℚ) ≠ 4 := by
  exact ⟨by decide, by decide, rfl, by norm_num⟩

/-- C2 (amended): for every free-text block with three or more plausible
amounts, the FIRST three parsed amounts (in extraction order) are taken
positionally as `(debit, credit, balance)`, unconditionally — there is no
three-column-layout detection, and any further amounts are ignored. -/
theorem pdf_first_three_amounts (line dd mon yr : List Char) (t : PdfTxn)
    (h : processMatchedLine line dd mon yr = some t) :
    3 ≤ ((findAmounts line).filterMap parseMatched).length
    ∧ t.debit = ((findAmounts line).filterMap parseMatched).getD 0 0
    ∧ t.credit = ((findAmounts line).filterMap parseMatched).getD 1 0
    ∧ t.balance = ((findAmounts line).filterMap parseMatched).getD 2 0 := by
  simp only [processMatchedLine] at h
  cases hp : (findAmounts line).filterMap parseMatched with
  | nil => rw [hp] at h; cases h
  | cons a tl =>
    cases tl with
    | nil => rw [hp] at h; cases h
    | cons b tl2 =>
      cases tl2 with
      | nil => rw [hp] at h; cases h
      | cons c tl3 =>
        rw [hp] at h
        have h9 : (if c ≤ 100000000 then
            (if (!(extractPartyFromLine line).isEmpty &&
                decide (2 ≤ (extractPartyFromLine line).length)) = true then
              some { date := String.mk (dd ++ '/' :: (monthOf mon ++ '/' :: yr)),
                     description := String.mk (cleanDescription line),
                     credit := b, debit := a, balance := c,
                     detected_party := String.mk (extractPartyFromLine line),
                     party := String.mk (extractPartyFromLine line) }
            else none)
          else (none : Option PdfTxn)) = some t := h
        split_ifs at h9 with h1 h2
        injection h9 with h9
        subst h9
        exact ⟨by simp only [List.length_cons]; omega, rfl, rfl, rfl⟩

/-- C2 witness: the amended positional rule at a concrete block with four
amounts. -/
theorem pdf_first_three_amounts_witness :
    c2Txn.debit = ((findAmounts c2Line).filterMap parseMatched).getD 0 0
    ∧ c2Txn.credit = ((findAmounts c2Line).filterMap parseMatched).getD 1 0
    ∧ c2Txn.balance = ((findAmounts c2Line).filterMap parseMatched).getD 2 0 :=
  let h := pdf_first_three_amounts c2Line ['0', '1'] ['J', 'a', 'n']
    ['2', '0', '2', '4'] c2Txn (by decide)
  ⟨h.2.1, h.2.2.1, h.2.2.2⟩

/-! ### Claim C10: every emitted PDF transaction has a party of length ≥ 2 -/

lemma guard2_some {q p : List Char} (h : guard2 q = some p) :
    2 ≤ p.length := by
  unfold guard2 at h
  split_ifs at h with hc
  injection h with h
  subst h
  obtain ⟨_, h2⟩ : (!q.isEmpty) = true ∧ decide (2 ≤ q.length) = true := by
    simpa using hc
  exact of_decide_eq_true h2

lemma mem_meaningfulWords_len {cs : List Char} {w : List Char}
    (h : w ∈ meaningfulWords cs) : 2 < w.length := by
  obtain ⟨a, _, ha⟩ := List.mem_filterMap.mp h
  by_cases hc : (2 < (stripSet ['.', ',', '-', '/'] a).length &&
      !(pdfFallbackSkipWords.contains
        (String.mk ((stripSet ['.', ',', '-', '/'] a).map pyUpperC))) &&
      !(isdigitAll (stripSet ['.', ',', '-', '/'] a)) &&
      !(decimalForm (stripSet ['.', ',', '-', '/'] a))) = true
  · rw [if_pos hc] at ha
    injection ha with ha
    have h1 : decide (2 < (stripSet ['.', ',', '-', '/'] a).length) = true := by
      simp only [Bool.and_eq_true] at hc
      exact hc.1.1.1
    rw [← ha]
    exact of_decide_eq_true h1
  · rw [if_neg hc] at ha
    cases ha

lemma joinSpace_head_le (w : List Char) (ws : List (List Char)) :
    w.length ≤ (joinSpace (w :: ws)).length := by
  cases ws with
  | nil => exact Nat.le_refl _
  | cons v vs =>
    show w.length ≤ (w ++ ' ' :: joinSpace (v :: vs)).length
    simp only [List.length_append, List.length_cons]
    omega

lemma extractPartyFromLine_len (line : List Char) :
    2 ≤ (extractPartyFromLine line).length := by
  simp only [extractPartyFromLine]
  cases h1 : (scanFor pat1At (line.map pyUpperC)).bind
      (fun g => guard2 (cleanPartyName (stripWs g))) with
  | some p =>
    obtain ⟨g, _, hg2⟩ := Option.bind_eq_some.mp h1
    exact guard2_some hg2
  | none =>
    cases h2 : (scanFor pat2At (line.map pyUpperC)).bind
        (fun g => guard2 (cleanPartyName (stripWs g))) with
    | some p =>
      obtain ⟨g, _, hg2⟩ := Option.bind_eq_some.mp h2
      exact guard2_some hg2
    | none =>
      cases h3 : (scanFor pat3At (line.map pyUpperC)).bind
          (fun g => guard2 (cleanPartyName (stripWs g))) with
      | some p =>
        obtain ⟨g, _, hg2⟩ := Option.bind_eq_some.mp h3
        exact guard2_some hg2
      | none =>
        cases h4 : (scanFor pat4At (line.map pyUpperC)).bind
            (fun g => guard2 (cleanPartyName (stripWs g))) with
        | some p =>
          obtain ⟨g, _, hg2⟩ := Option.bind_eq_some.mp h4
          exact guard2_some hg2
        | none =>
          cases hml : meaningfulWords (line.map pyUpperC) with
          | nil => decide
          | cons w ws =>
            have hw : 2 < w.length :=
              mem_meaningfulWords_len (hml ▸ List.mem_cons_self w ws)
            have hj : w.length ≤ (joinSpace (w :: ws.take 3)).length :=
              joinSpace_head_le w (ws.take 3)
            have hred : (if ((w :: ws).isEmpty) = true then "UNKNOWN".data
                else joinSpace ((w :: ws).take 4)) = joinSpace (w :: ws.take 3) := by
              simp [List.take_succ_cons]
            show 2 ≤ (if ((w :: ws).isEmpty) = true then "UNKNOWN".data
                else joinSpace ((w :: ws).take 4)).length
            rw [hred]
            omega

lemma processMatchedLine_party {line dd mon yr : List Char} {t : PdfTxn}
    (h : processMatchedLine line dd mon yr = some t) :
    t.party ≠ "" ∧ 2 ≤ t.party.length := by
  simp only [processMatchedLine] at h
  cases hp : (findAmounts line).filterMap parseMatched with
  | nil => rw [hp] at h; cases h
  | cons a tl =>
    cases tl with
    | nil => rw [hp] at h; cases h
    | cons b tl2 =>
      cases tl2 with
      | nil => rw [hp] at h; cases h
      | cons c tl3 =>
        rw [hp] at h
        have h9 : (if c ≤ 100000000 then
            (if (!(extractPartyFromLine line).isEmpty &&
                decide (2 ≤ (extractPartyFromLine line).length)) = true then
              some { date := String.mk (dd ++ '/' :: (monthOf mon ++ '/' :: yr)),
                     description := String.mk (cleanDescription line),
                     credit := b, debit := a, balance := c,
                     detected_party := String.mk (extractPartyFromLine line),
                     party := String.mk (extractPartyFromLine line) }
            else none)
          else (none : Option PdfTxn)) = some t := h
        split_ifs at h9 with h1 h2
        injection h9 with h9
        subst h9
        obtain ⟨hne, hlen⟩ : (!(extractPartyFromLine line).isEmpty) = true ∧
            decide (2 ≤ (extractPartyFromLine line).length) = true := by
          simpa using h2
        refine ⟨?_, of_decide_eq_true hlen⟩
        intro he
        have hdata : extractPartyFromLine line = ([] : List Char) :=
          congrArg String.data he
        rw [hdata] at hne
        simp at hne

/-- C10: every transaction emitted by the PDF text parser carries a
non-empty party string of length at least 2 (the emission guard requires
it), and indeed the PDF party extractor never returns a shorter string: its
pattern branches are guarded by `len(party) >= 2` and its final fallback
yields either meaningful tokens longer than 2 characters or the literal
`"UNKNOWN"`. -/
theorem pdf_party_min_length :
    (∀ (text : String) (t : PdfTxn), t ∈ parseText text →
      t.party ≠ "" ∧ 2 ≤ t.party.length)
    ∧ (∀ line : List Char, 2 ≤ (extractPartyFromLine line).length) := by
  constructor
  · have haux : ∀ (fuel : Nat) (lines : List (List Char)) (t : PdfTxn),
        t ∈ parseTextAux fuel lines → t.party ≠ "" ∧ 2 ≤ t.party.length := by
      intro fuel
      induction fuel with
      | zero => intro lines t ht; cases ht
      | succ n ih =>
        intro lines t ht
        cases lines with
        | nil => cases ht
        | cons l rest =>
          simp only [parseTextAux] at ht
          by_cases hskip : ((stripWs l).isEmpty || isHeaderLine (stripWs l))
              = true
          · rw [if_pos hskip] at ht
            exact ih rest t ht
          · rw [if_neg hskip] at ht
            cases hds : dateSearch (stripWs l) with
            | none =>
              rw [hds] at ht
              exact ih rest t ht
            | some dm =>
              rw [hds] at ht
              cases rest with
              | nil => exact ih [] t ht
              | cons nl rest2 =>
                have hhd : ((nl :: rest2).head?.bind
                    (fun x => yearOf (stripWs x))) = yearOf (stripWs nl) := rfl
                rw [hhd] at ht
                cases hyr : yearOf (stripWs nl) with
                | none =>
                  rw [hyr] at ht
                  exact ih (nl :: rest2) t ht
                | some yr =>
                  rw [hyr] at ht
                  rcases List.mem_append.mp ht with hl | hr
                  · cases hpm : processMatchedLine (stripWs l) dm.1 dm.2 yr with
                    | none => rw [hpm] at hl; cases hl
                    | some t0 =>
                      rw [hpm] at hl
                      have he : t = t0 := by simpa using hl
                      subst he
                      exact processMatchedLine_party hpm
                  · exact ih rest2 t hr
    intro text t ht
    exact haux _ _ t ht
  · exact extractPartyFromLine_len

def c10Text : String := "01-Jan- DEPOSIT RAMESH KUMAR 1.00 2.00 3.00\n2024 0001"

def c10Txn : PdfTxn :=
  { date := "01/01/2024", description := "DEPOSIT RAMESH KUMAR", credit := 2,
    debit := 1, balance := 3, detected_party := "RAMESH KUMAR",
    party := "RAMESH KUMAR" }

/-- C10 witness: a concrete two-line statement fragment whose single emitted
transaction has party `"RAMESH KUMAR"` of length 12 ≥ 2. -/
theorem pdf_party_min_length_witness :
    c10Txn.party ≠ "" ∧ 2 ≤ c10Txn.party.length :=
  pdf_party_min_length.1 c10Text c10Txn (by decide)

end BankPipe
